import Mathlib

/-!
# Verification of the graph-fixer engine of `beanmachine/ppl/compiler/fix_problem.py`

Shallow embedding of the module. Python node objects are identified by their
identity, modelled as `Nat`; the Python `is` comparison becomes equality of
these identities. A graph is the list of nodes enumerated by
`bmg.all_ancestor_nodes()`, in enumeration order, each node carried together
with its ordered list of input identities. Diagnostics (`BMGError` values)
are opaque and modelled as `Nat`; the dictionary `replacements` is an
association list inserted only at fresh keys; the set `reported` is a
duplicate-free list. Both drivers are instrumented with traces recording the
fixer / `_needs_fixing` / `_get_replacement` invocations, the fatal-report
events, and the `typer.update_type` calls, so that invocation-count and
call-ordering properties of the source can be stated.
-/

/-- Result of a node fixer: a `BMGNode` (the input itself, meaning "already
correct", or a replacement), Python `None`, or one of the two sentinel
`NodeFixerError` values `Inapplicable` and `Fatal`. -/
inductive NodeFixerResult where
  | node (n : Nat)
  | none
  | inapplicable
  | fatal
deriving DecidableEq, Repr

/-- A node fixer: a function from a node to a `NodeFixerResult`. -/
abbrev NodeFixer := Nat → NodeFixerResult

/-- The loop inside `node_fixer_first_match`: try each fixer in order and
return the first result that is neither `None` nor `Inapplicable`; if the
list is exhausted, return `Inapplicable`. -/
def first_match : List NodeFixer → Nat → NodeFixerResult
  | [], _ => .inapplicable
  | f :: rest, n =>
    match f n with
    | .none => first_match rest n
    | .inapplicable => first_match rest n
    | result => result

/-- `node_fixer_first_match(fixers)` returns the `first_match` closure. -/
def node_fixer_first_match (fixers : List NodeFixer) : NodeFixer :=
  fun node => first_match fixers node

/-- Instrumented variant of `first_match` that also counts how many
sub-fixers were invoked before the loop returned. -/
def first_match_count : List NodeFixer → Nat → NodeFixerResult × Nat
  | [], _ => (.inapplicable, 0)
  | f :: rest, n =>
    match f n with
    | .none => ((first_match_count rest n).1, (first_match_count rest n).2 + 1)
    | .inapplicable => ((first_match_count rest n).1, (first_match_count rest n).2 + 1)
    | result => (result, 1)

/-- `type_guard(t, fixer)`: the guarded fixer returns `fixer(node)` if the
node is an instance of `t` and Python `None` otherwise. The `isinstance`
test is modelled by a Boolean predicate on node identities. -/
def type_guard (isT : Nat → Bool) (fixer : NodeFixer) : NodeFixer :=
  fun node => if isT node then fixer node else .none

/-- A graph: the nodes enumerated by `bmg.all_ancestor_nodes()` in order,
each as (identity, ordered list of input identities). -/
abbrev Graph := List (Nat × List Nat)

/-- Association-list lookup modelling the `replacements` dictionary. -/
def rlookup (c : Nat) : List (Nat × Nat) → Option Nat
  | [] => Option.none
  | (a, b) :: rest => if c = a then some b else rlookup c rest

/-- The mutable state of one `ancestors_first` pass, together with
instrumentation traces:
`replacements` and `reported` are the pass-local caches, `errors` the
accumulated diagnostics, `events` the trace of fatal-report events as
(child, consumer, input index) triples, `progress` the `made_progress`
flag, `fixerCalls` the trace of nodes the node fixer was invoked on, and
`typerCalls` the trace of `typer.update_type` calls. -/
structure AFState where
  replacements : List (Nat × Nat)
  reported : List Nat
  errors : List Nat
  events : List (Nat × Nat × Nat)
  progress : Bool
  fixerCalls : List Nat
  typerCalls : List Nat
deriving DecidableEq, Repr

/-- Initial state of an `ancestors_first` pass. -/
def AFState.init : AFState :=
  ⟨[], [], [], [], false, [], []⟩

/-- One iteration of the inner loop of `ancestors_first`, processing the
edge at index `i` of the node `nid` whose current child is `c`. Returns the
new child stored at that index, the new pass state, and whether this edge
was assigned (`node.inputs[i] = ...` executed). -/
def afStep (f : NodeFixer) (ge : Option (Nat → Nat → Option Nat))
    (nid i c : Nat) (st : AFState) : Nat × AFState × Bool :=
  if c ∈ st.reported then (c, st, false)
  else
    match rlookup c st.replacements with
    | some r => if c = r then (c, st, false) else (r, st, true)
    | Option.none =>
      let st1 : AFState := { st with fixerCalls := st.fixerCalls ++ [c] }
      match f c with
      | .node r =>
        let st2 : AFState := { st1 with replacements := (c, r) :: st1.replacements }
        if c = r then (c, st2, false)
        else (r, { st2 with progress := true }, true)
      | .fatal =>
        let st2 : AFState := { st1 with
          reported := st1.reported ++ [c],
          events := st1.events ++ [(c, nid, i)] }
        match ge with
        | some g =>
          match g nid i with
          | some e => (c, { st2 with errors := st2.errors ++ [e] }, false)
          | Option.none => (c, st2, false)
        | Option.none => (c, st2, false)
      | _ => (c, st1, false)

/-- The inner loop of `ancestors_first` over the remaining inputs of node
`nid`, starting at index `i`. Returns the rewritten input list, the new
state, and whether any edge of this node was assigned. -/
def afInputs (f : NodeFixer) (ge : Option (Nat → Nat → Option Nat))
    (nid : Nat) : List Nat → Nat → AFState → List Nat × AFState × Bool
  | [], _, st => ([], st, false)
  | c :: rest, i, st =>
    let s := afStep f ge nid i c st
    let t := afInputs f ge nid rest (i + 1) s.2.1
    (s.1 :: t.1, t.2.1, s.2.2 || t.2.2)

/-- Processing of one node of the `ancestors_first` loop: walk its input
edges, then call `typer.update_type` if any edge was assigned
(`node_was_updated`). -/
def afNode (f : NodeFixer) (ge : Option (Nat → Nat → Option Nat))
    (row : Nat × List Nat) (st : AFState) : (Nat × List Nat) × AFState :=
  let t := afInputs f ge row.1 row.2 0 st
  ((row.1, t.1),
    if t.2.2 then { t.2.1 with typerCalls := t.2.1.typerCalls ++ [row.1] }
    else t.2.1)

/-- The outer loop of `ancestors_first` over the enumerated nodes. -/
def afPass (f : NodeFixer) (ge : Option (Nat → Nat → Option Nat)) :
    Graph → AFState → Graph × AFState
  | [], st => ([], st)
  | row :: rest, st =>
    let r := afNode f ge row st
    let t := afPass f ge rest r.2
    (r.1 :: t.1, t.2)

/-- One full `ancestors_first` pass on a graph from the initial state of
`ancestors_first_graph_fixer` (empty caches, `made_progress = False`).
Returns the mutated graph together with the final state; the value the
Python closure returns is the pair (`progress`, `errors`) of that state. -/
def ancestors_first (f : NodeFixer) (ge : Option (Nat → Nat → Option Nat))
    (g : Graph) : Graph × AFState :=
  afPass f ge g AFState.init

/-- The mutable state of one `ProblemFixerBase.fix_problems` run, with
instrumentation: `nfCalls` traces `_needs_fixing` invocations and `grCalls`
traces `_get_replacement` invocations. -/
structure PFState where
  replacements : List (Nat × Nat)
  reported : List Nat
  errors : List Nat
  events : List (Nat × Nat × Nat)
  nfCalls : List Nat
  grCalls : List Nat
  typerCalls : List Nat
deriving DecidableEq, Repr

/-- Initial state of a `fix_problems` run (fresh `ErrorReport`). -/
def PFState.init : PFState :=
  ⟨[], [], [], [], [], [], []⟩

/-- One iteration of the inner loop of `fix_problems`, processing the edge
at index `i` of node `nid` whose current child is `c`, for a template
policy given by `nf = _needs_fixing`, `gr = _get_replacement`,
`ge = _get_error`. -/
def pfStep (nf : Nat → Bool) (gr : Nat → Option Nat) (ge : Nat → Nat → Option Nat)
    (nid i c : Nat) (st : PFState) : Nat × PFState × Bool :=
  match rlookup c st.replacements with
  | some r => if c = r then (c, st, false) else (r, st, true)
  | Option.none =>
    let st1 : PFState := { st with nfCalls := st.nfCalls ++ [c] }
    if nf c then
      let st2 : PFState := { st1 with grCalls := st1.grCalls ++ [c] }
      match gr c with
      | some r =>
        let st3 : PFState := { st2 with replacements := (c, r) :: st2.replacements }
        if c = r then (c, st3, false) else (r, st3, true)
      | Option.none =>
        if c ∈ st2.reported then (c, st2, false)
        else
          let st3 : PFState := { st2 with
            reported := st2.reported ++ [c],
            events := st2.events ++ [(c, nid, i)] }
          match ge nid i with
          | some e => (c, { st3 with errors := st3.errors ++ [e] }, false)
          | Option.none => (c, st3, false)
    else (c, st1, false)

/-- The inner loop of `fix_problems` over the remaining inputs of `nid`. -/
def pfInputs (nf : Nat → Bool) (gr : Nat → Option Nat) (ge : Nat → Nat → Option Nat)
    (nid : Nat) : List Nat → Nat → PFState → List Nat × PFState × Bool
  | [], _, st => ([], st, false)
  | c :: rest, i, st =>
    let s := pfStep nf gr ge nid i c st
    let t := pfInputs nf gr ge nid rest (i + 1) s.2.1
    (s.1 :: t.1, t.2.1, s.2.2 || t.2.2)

/-- Processing of one node of the `fix_problems` loop. -/
def pfNode (nf : Nat → Bool) (gr : Nat → Option Nat) (ge : Nat → Nat → Option Nat)
    (row : Nat × List Nat) (st : PFState) : (Nat × List Nat) × PFState :=
  let t := pfInputs nf gr ge row.1 row.2 0 st
  ((row.1, t.1),
    if t.2.2 then { t.2.1 with typerCalls := t.2.1.typerCalls ++ [row.1] }
    else t.2.1)

/-- The outer loop of `fix_problems`. -/
def pfPass (nf : Nat → Bool) (gr : Nat → Option Nat) (ge : Nat → Nat → Option Nat) :
    Graph → PFState → Graph × PFState
  | [], st => ([], st)
  | row :: rest, st =>
    let r := pfNode nf gr ge row st
    let t := pfPass nf gr ge rest r.2
    (r.1 :: t.1, t.2)

/-- One full `ProblemFixerBase.fix_problems` run on a graph, from a fresh
instance. Returns the mutated graph and the final state (whose `errors`
field is the instance's `self.errors`). -/
def fix_problems (nf : Nat → Bool) (gr : Nat → Option Nat)
    (ge : Nat → Nat → Option Nat) (g : Graph) : Graph × PFState :=
  pfPass nf gr ge g PFState.init

/-- The `_needs_fixing` predicate corresponding to a node fixer `f`
under the correspondence of the spec: true exactly when `f` yields a
genuine replacement or judges the node fatally broken. -/
def needsFixingOf (f : NodeFixer) (n : Nat) : Bool :=
  match f n with
  | .node r => decide (r ≠ n)
  | .fatal => true
  | _ => false

/-- The `_get_replacement` function corresponding to a node fixer `f`:
the replacement when `f` yields one, nothing when `f` yields `Fatal`. -/
def getReplacementOf (f : NodeFixer) (n : Nat) : Option Nat :=
  match f n with
  | .node r => if r = n then Option.none else some r
  | _ => Option.none

/-- The diagnostics produced by a list of fatal-report events under an
optional diagnostic factory: each event (child, consumer, index) yields the
factory's output at (consumer, index) when present. -/
def evErrors (ge : Option (Nat → Nat → Option Nat))
    (evs : List (Nat × Nat × Nat)) : List Nat :=
  evs.filterMap fun e =>
    match ge with
    | some g => g e.2.1 e.2.2
    | Option.none => Option.none

/-- `AFExtends st st2` says the pass state `st2` arises from `st` by
appending to the trace lists, adding fresh cache entries, and possibly
setting the progress flag. -/
def AFExtends (st st2 : AFState) : Prop :=
  (∃ l, st2.reported = st.reported ++ l)
  ∧ (∃ l, st2.events = st.events ++ l)
  ∧ (∃ l, st2.errors = st.errors ++ l)
  ∧ (∃ l, st2.fixerCalls = st.fixerCalls ++ l)
  ∧ (∃ l, st2.typerCalls = st.typerCalls ++ l)
  ∧ (∀ a b, rlookup a st.replacements = some b →
      rlookup a st2.replacements = some b)
  ∧ (st.progress = true → st2.progress = true)

/-- `PFExtends st st2`: the `fix_problems` analogue of `AFExtends`. -/
def PFExtends (st st2 : PFState) : Prop :=
  (∃ l, st2.reported = st.reported ++ l)
  ∧ (∃ l, st2.events = st.events ++ l)
  ∧ (∃ l, st2.errors = st.errors ++ l)
  ∧ (∃ l, st2.nfCalls = st.nfCalls ++ l)
  ∧ (∃ l, st2.grCalls = st.grCalls ++ l)
  ∧ (∃ l, st2.typerCalls = st.typerCalls ++ l)
  ∧ (∀ a b, rlookup a st.replacements = some b →
      rlookup a st2.replacements = some b)

/-- For a (pure) node fixer `f`, every `replacements` entry records an
actual fixer result and every `reported` member was judged `Fatal`. -/
def AFInv (f : NodeFixer) (st : AFState) : Prop :=
  (∀ a b, rlookup a st.replacements = some b → f a = .node b)
  ∧ (∀ a, a ∈ st.reported → f a = .fatal)

/-- Counting invariant for a node `c` on which the (pure) fixer `f` is
decisive: `c` has been passed to the fixer at most once, and not at all
while it is neither cached nor reported. -/
def AFCount (c : Nat) (st : AFState) : Prop :=
  st.fixerCalls.count c ≤ 1
  ∧ (rlookup c st.replacements = Option.none → c ∉ st.reported →
      st.fixerCalls.count c = 0)

/-- Invariant: a non-identity cache entry can only exist once
`made_progress` has been set. -/
def AFProg (st : AFState) : Prop :=
  ∀ a b, rlookup a st.replacements = some b → a ≠ b → st.progress = true

/-- State shape maintained by a pass whose fixer only ever returns the
node itself or `Inapplicable`. -/
def AFTriv (st : AFState) : Prop :=
  st.reported = [] ∧ st.errors = [] ∧ st.progress = false
  ∧ (∀ a b, rlookup a st.replacements = some b → b = a)

/-- Bookkeeping invariant tying the fatal-report events to the `reported`
set and the error report: the children of the events are exactly the
reported nodes in order, the reported set is duplicate-free, and the error
report holds exactly the diagnostics the factory produced for the events. -/
def AFEv (ge : Option (Nat → Nat → Option Nat)) (st : AFState) : Prop :=
  st.events.map (fun e => e.1) = st.reported
  ∧ st.reported.Nodup
  ∧ st.errors = evErrors ge st.events

/-- The `fix_problems` analogue of `AFEv`. -/
def PFEv (ge : Nat → Nat → Option Nat) (st : PFState) : Prop :=
  st.events.map (fun e => e.1) = st.reported
  ∧ st.reported.Nodup
  ∧ st.errors = evErrors (some ge) st.events

/-- Simulation invariant between a state of `ancestors_first` for the node
fixer `f` and a state of `fix_problems` for the policy derived from `f`:
the observable components agree, and the two replacement caches agree
except that only the functional driver caches identity entries. -/
structure EquivInv (f : NodeFixer) (sA : AFState) (sP : PFState) : Prop where
  rep : sA.reported = sP.reported
  err : sA.errors = sP.errors
  evs : sA.events = sP.events
  typ : sA.typerCalls = sP.typerCalls
  lkp : ∀ x b, rlookup x sP.replacements = some b ↔
      (rlookup x sA.replacements = some b ∧ b ≠ x)
  inv : AFInv f sA

/-! ## Branch lemmas for the two step functions -/

lemma afStep_of_reported {c : Nat} {st : AFState}
    (f : NodeFixer) (ge : Option (Nat → Nat → Option Nat)) (nid i : Nat)
    (h : c ∈ st.reported) :
    afStep f ge nid i c st = (c, st, false) := by
  simp [afStep, h]

lemma afStep_of_cached {c : Nat} {st : AFState} {r : Nat}
    (f : NodeFixer) (ge : Option (Nat → Nat → Option Nat)) (nid i : Nat)
    (h : c ∉ st.reported) (h2 : rlookup c st.replacements = some r) :
    afStep f ge nid i c st = if c = r then (c, st, false) else (r, st, true) := by
  simp [afStep, h, h2]

lemma afStep_of_node {f : NodeFixer} {c : Nat} {st : AFState} {r : Nat}
    (ge : Option (Nat → Nat → Option Nat)) (nid i : Nat)
    (h : c ∉ st.reported) (h2 : rlookup c st.replacements = Option.none)
    (h3 : f c = .node r) :
    afStep f ge nid i c st =
      if c = r then
        (c, { st with fixerCalls := st.fixerCalls ++ [c],
                      replacements := (c, r) :: st.replacements }, false)
      else
        (r, { st with fixerCalls := st.fixerCalls ++ [c],
                      replacements := (c, r) :: st.replacements,
                      progress := true }, true) := by
  by_cases hc : c = r
  · subst hc; simp [afStep, h, h2, h3]
  · simp [afStep, h, h2, h3, hc]

lemma afStep_of_fatal {f : NodeFixer} {c : Nat} {st : AFState}
    (ge : Option (Nat → Nat → Option Nat)) (nid i : Nat)
    (h : c ∉ st.reported) (h2 : rlookup c st.replacements = Option.none)
    (h3 : f c = .fatal) :
    afStep f ge nid i c st =
      (c, { st with fixerCalls := st.fixerCalls ++ [c],
                    reported := st.reported ++ [c],
                    events := st.events ++ [(c, nid, i)],
                    errors := st.errors ++ evErrors ge [(c, nid, i)] }, false) := by
  rcases ge with _ | g
  · simp [afStep, h, h2, h3, evErrors]
  · rcases he : g nid i with _ | e <;>
      simp [afStep, h, h2, h3, evErrors, he]

lemma afStep_of_skip {f : NodeFixer} {c : Nat} {st : AFState}
    (ge : Option (Nat → Nat → Option Nat)) (nid i : Nat)
    (h : c ∉ st.reported) (h2 : rlookup c st.replacements = Option.none)
    (h3 : f c = NodeFixerResult.none ∨ f c = .inapplicable) :
    afStep f ge nid i c st =
      (c, { st with fixerCalls := st.fixerCalls ++ [c] }, false) := by
  rcases h3 with h3 | h3 <;> simp [afStep, h, h2, h3]

lemma pfStep_of_cached {c : Nat} {st : PFState} {r : Nat}
    (nf : Nat → Bool) (gr : Nat → Option Nat) (ge : Nat → Nat → Option Nat)
    (nid i : Nat) (h2 : rlookup c st.replacements = some r) :
    pfStep nf gr ge nid i c st = if c = r then (c, st, false) else (r, st, true) := by
  simp [pfStep, h2]

lemma pfStep_of_not_needed {nf : Nat → Bool} {c : Nat} {st : PFState}
    (gr : Nat → Option Nat) (ge : Nat → Nat → Option Nat) (nid i : Nat)
    (h2 : rlookup c st.replacements = Option.none) (h3 : nf c = false) :
    pfStep nf gr ge nid i c st =
      (c, { st with nfCalls := st.nfCalls ++ [c] }, false) := by
  simp [pfStep, h2, h3]

lemma pfStep_of_repl {nf : Nat → Bool} {gr : Nat → Option Nat} {c : Nat}
    {st : PFState} {r : Nat}
    (ge : Nat → Nat → Option Nat) (nid i : Nat)
    (h2 : rlookup c st.replacements = Option.none) (h3 : nf c = true)
    (h4 : gr c = some r) :
    pfStep nf gr ge nid i c st =
      if c = r then
        (c, { st with nfCalls := st.nfCalls ++ [c],
                      grCalls := st.grCalls ++ [c],
                      replacements := (c, r) :: st.replacements }, false)
      else
        (r, { st with nfCalls := st.nfCalls ++ [c],
                      grCalls := st.grCalls ++ [c],
                      replacements := (c, r) :: st.replacements }, true) := by
  by_cases hc : c = r
  · subst hc; simp [pfStep, h2, h3, h4]
  · simp [pfStep, h2, h3, h4, hc]

lemma pfStep_of_unrep_reported {nf : Nat → Bool} {gr : Nat → Option Nat}
    {c : Nat} {st : PFState}
    (ge : Nat → Nat → Option Nat) (nid i : Nat)
    (h2 : rlookup c st.replacements = Option.none) (h3 : nf c = true)
    (h4 : gr c = Option.none) (h5 : c ∈ st.reported) :
    pfStep nf gr ge nid i c st =
      (c, { st with nfCalls := st.nfCalls ++ [c],
                    grCalls := st.grCalls ++ [c] }, false) := by
  simp [pfStep, h2, h3, h4, h5]

lemma rlookup_cons (a x y : Nat) (l : List (Nat × Nat)) :
    rlookup a ((x, y) :: l) = if a = x then some y else rlookup a l := rfl

lemma rlookup_cons_preserve {a b x : Nat} {l : List (Nat × Nat)} (y : Nat)
    (hx : rlookup x l = Option.none) (h : rlookup a l = some b) :
    rlookup a ((x, y) :: l) = some b := by
  rcases eq_or_ne a x with he | he
  · subst he; rw [h] at hx; cases hx
  · rw [rlookup_cons]; simp [he, h]

lemma pfStep_of_unrep_fresh {nf : Nat → Bool} {gr : Nat → Option Nat}
    {c : Nat} {st : PFState}
    (ge : Nat → Nat → Option Nat) (nid i : Nat)
    (h2 : rlookup c st.replacements = Option.none) (h3 : nf c = true)
    (h4 : gr c = Option.none) (h5 : c ∉ st.reported) :
    pfStep nf gr ge nid i c st =
      (c, { st with nfCalls := st.nfCalls ++ [c],
                    grCalls := st.grCalls ++ [c],
                    reported := st.reported ++ [c],
                    events := st.events ++ [(c, nid, i)],
                    errors := st.errors ++ evErrors (some ge) [(c, nid, i)] }, false) := by
  rcases he : ge nid i with _ | e <;>
    simp [pfStep, h2, h3, h4, h5, evErrors, he]

/-! ## Case-analysis principles for the step functions -/

lemma afStep_cases (f : NodeFixer) (ge : Option (Nat → Nat → Option Nat))
    (nid i c : Nat) (st : AFState) (P : Nat × AFState × Bool → Prop)
    (hrep : c ∈ st.reported → P (c, st, false))
    (hcachedEq : c ∉ st.reported → rlookup c st.replacements = some c →
      P (c, st, false))
    (hcachedNe : ∀ r, c ∉ st.reported → rlookup c st.replacements = some r → c ≠ r →
      P (r, st, true))
    (hnodeEq : c ∉ st.reported → rlookup c st.replacements = Option.none →
      f c = .node c →
      P (c, { st with fixerCalls := st.fixerCalls ++ [c],
                      replacements := (c, c) :: st.replacements }, false))
    (hnodeNe : ∀ r, c ∉ st.reported → rlookup c st.replacements = Option.none →
      f c = .node r → c ≠ r →
      P (r, { st with fixerCalls := st.fixerCalls ++ [c],
                      replacements := (c, r) :: st.replacements,
                      progress := true }, true))
    (hfatal : c ∉ st.reported → rlookup c st.replacements = Option.none →
      f c = .fatal →
      P (c, { st with fixerCalls := st.fixerCalls ++ [c],
                      reported := st.reported ++ [c],
                      events := st.events ++ [(c, nid, i)],
                      errors := st.errors ++ evErrors ge [(c, nid, i)] }, false))
    (hskip : c ∉ st.reported → rlookup c st.replacements = Option.none →
      (f c = NodeFixerResult.none ∨ f c = .inapplicable) →
      P (c, { st with fixerCalls := st.fixerCalls ++ [c] }, false)) :
    P (afStep f ge nid i c st) := by
  by_cases h : c ∈ st.reported
  · rw [afStep_of_reported f ge nid i h]
    exact hrep h
  · rcases h2 : rlookup c st.replacements with _ | r
    · rcases h3 : f c with r | _ | _ | _
      · rw [afStep_of_node ge nid i h h2 h3]
        by_cases hc : c = r
        · subst hc
          rw [if_pos rfl]
          exact hnodeEq h h2 h3
        · rw [if_neg hc]
          exact hnodeNe r h h2 h3 hc
      · rw [afStep_of_skip ge nid i h h2 (Or.inl h3)]
        exact hskip h h2 (Or.inl h3)
      · rw [afStep_of_skip ge nid i h h2 (Or.inr h3)]
        exact hskip h h2 (Or.inr h3)
      · rw [afStep_of_fatal ge nid i h h2 h3]
        exact hfatal h h2 h3
    · rw [afStep_of_cached f ge nid i h h2]
      by_cases hc : c = r
      · subst hc
        rw [if_pos rfl]
        exact hcachedEq h h2
      · rw [if_neg hc]
        exact hcachedNe r h h2 hc

lemma pfStep_cases (nf : Nat → Bool) (gr : Nat → Option Nat)
    (ge : Nat → Nat → Option Nat) (nid i c : Nat) (st : PFState)
    (P : Nat × PFState × Bool → Prop)
    (hcachedEq : rlookup c st.replacements = some c → P (c, st, false))
    (hcachedNe : ∀ r, rlookup c st.replacements = some r → c ≠ r →
      P (r, st, true))
    (hnotNeeded : rlookup c st.replacements = Option.none → nf c = false →
      P (c, { st with nfCalls := st.nfCalls ++ [c] }, false))
    (hreplEq : rlookup c st.replacements = Option.none → nf c = true →
      gr c = some c →
      P (c, { st with nfCalls := st.nfCalls ++ [c],
                      grCalls := st.grCalls ++ [c],
                      replacements := (c, c) :: st.replacements }, false))
    (hreplNe : ∀ r, rlookup c st.replacements = Option.none → nf c = true →
      gr c = some r → c ≠ r →
      P (r, { st with nfCalls := st.nfCalls ++ [c],
                      grCalls := st.grCalls ++ [c],
                      replacements := (c, r) :: st.replacements }, true))
    (hunrepRep : rlookup c st.replacements = Option.none → nf c = true →
      gr c = Option.none → c ∈ st.reported →
      P (c, { st with nfCalls := st.nfCalls ++ [c],
                      grCalls := st.grCalls ++ [c] }, false))
    (hunrepFresh : rlookup c st.replacements = Option.none → nf c = true →
      gr c = Option.none → c ∉ st.reported →
      P (c, { st with nfCalls := st.nfCalls ++ [c],
                      grCalls := st.grCalls ++ [c],
                      reported := st.reported ++ [c],
                      events := st.events ++ [(c, nid, i)],
                      errors := st.errors ++ evErrors (some ge) [(c, nid, i)] },
        false)) :
    P (pfStep nf gr ge nid i c st) := by
  rcases h2 : rlookup c st.replacements with _ | r
  · rcases h3 : nf c with _ | _
    · rw [pfStep_of_not_needed gr ge nid i h2 h3]
      exact hnotNeeded h2 h3
    · rcases h4 : gr c with _ | r
      · by_cases h5 : c ∈ st.reported
        · rw [pfStep_of_unrep_reported ge nid i h2 h3 h4 h5]
          exact hunrepRep h2 h3 h4 h5
        · rw [pfStep_of_unrep_fresh ge nid i h2 h3 h4 h5]
          exact hunrepFresh h2 h3 h4 h5
      · rw [pfStep_of_repl ge nid i h2 h3 h4]
        by_cases hc : c = r
        · subst hc
          rw [if_pos rfl]
          exact hreplEq h2 h3 h4
        · rw [if_neg hc]
          exact hreplNe r h2 h3 h4 hc
  · rw [pfStep_of_cached nf gr ge nid i h2]
    by_cases hc : c = r
    · subst hc
      rw [if_pos rfl]
      exact hcachedEq h2
    · rw [if_neg hc]
      exact hcachedNe r h2 hc

/-! ## State-extension (monotonicity) lemmas -/

lemma afExtends_rfl (st : AFState) : AFExtends st st :=
  ⟨⟨[], by simp⟩, ⟨[], by simp⟩, ⟨[], by simp⟩, ⟨[], by simp⟩, ⟨[], by simp⟩,
    fun _ _ h => h, fun h => h⟩

lemma afExtends_trans {s1 s2 s3 : AFState}
    (h : AFExtends s1 s2) (h2 : AFExtends s2 s3) : AFExtends s1 s3 := by
  obtain ⟨⟨a1, e1⟩, ⟨a2, e2⟩, ⟨a3, e3⟩, ⟨a4, e4⟩, ⟨a5, e5⟩, hl, hp⟩ := h
  obtain ⟨⟨b1, d1⟩, ⟨b2, d2⟩, ⟨b3, d3⟩, ⟨b4, d4⟩, ⟨b5, d5⟩, hl2, hp2⟩ := h2
  exact ⟨⟨a1 ++ b1, by simp [d1, e1]⟩, ⟨a2 ++ b2, by simp [d2, e2]⟩,
    ⟨a3 ++ b3, by simp [d3, e3]⟩, ⟨a4 ++ b4, by simp [d4, e4]⟩,
    ⟨a5 ++ b5, by simp [d5, e5]⟩,
    fun a b hab => hl2 a b (hl a b hab), fun hh => hp2 (hp hh)⟩

lemma afStep_extends (f : NodeFixer) (ge : Option (Nat → Nat → Option Nat))
    (nid i c : Nat) (st : AFState) :
    AFExtends st (afStep f ge nid i c st).2.1 := by
  refine afStep_cases f ge nid i c st (fun t => AFExtends st t.2.1) ?_ ?_ ?_ ?_ ?_ ?_ ?_
  · intro _
    exact afExtends_rfl st
  · intro _ _
    exact afExtends_rfl st
  · intro r _ _ _
    exact afExtends_rfl st
  · intro _ h2 _
    exact ⟨⟨[], by simp⟩, ⟨[], by simp⟩, ⟨[], by simp⟩, ⟨[c], by simp⟩,
      ⟨[], by simp⟩, fun a b hab => rlookup_cons_preserve _ h2 hab, fun h => h⟩
  · intro r _ h2 _ _
    exact ⟨⟨[], by simp⟩, ⟨[], by simp⟩, ⟨[], by simp⟩, ⟨[c], by simp⟩,
      ⟨[], by simp⟩, fun a b hab => rlookup_cons_preserve _ h2 hab, fun _ => rfl⟩
  · intro _ _ _
    exact ⟨⟨[c], by simp⟩, ⟨[(c, nid, i)], by simp⟩,
      ⟨evErrors ge [(c, nid, i)], by simp⟩, ⟨[c], by simp⟩,
      ⟨[], by simp⟩, fun _ _ h => h, fun h => h⟩
  · intro _ _ _
    exact ⟨⟨[], by simp⟩, ⟨[], by simp⟩, ⟨[], by simp⟩, ⟨[c], by simp⟩,
      ⟨[], by simp⟩, fun _ _ h => h, fun h => h⟩

lemma afInputs_suffix (f : NodeFixer) (ge : Option (Nat → Nat → Option Nat))
    (nid : Nat) : ∀ (ins : List Nat) (i : Nat) (st : AFState),
    AFExtends st (afInputs f ge nid ins i st).2.1
  | [], _, st => afExtends_rfl st
  | c :: rest, i, st => by
    have h1 := afStep_extends f ge nid i c st
    have h2 := afInputs_suffix f ge nid rest (i + 1) (afStep f ge nid i c st).2.1
    simpa [afInputs] using afExtends_trans h1 h2

lemma afNode_extends (f : NodeFixer) (ge : Option (Nat → Nat → Option Nat))
    (row : Nat × List Nat) (st : AFState) :
    AFExtends st (afNode f ge row st).2 := by
  have h1 := afInputs_suffix f ge row.1 row.2 0 st
  unfold afNode
  by_cases h : (afInputs f ge row.1 row.2 0 st).2.2
  · simp only [h, if_true]
    refine afExtends_trans h1 ?_
    exact ⟨⟨[], by simp⟩, ⟨[], by simp⟩, ⟨[], by simp⟩, ⟨[], by simp⟩,
      ⟨[row.1], by simp⟩, fun _ _ hh => hh, fun hh => hh⟩
  · simpa [h] using h1

lemma afPass_extends (f : NodeFixer) (ge : Option (Nat → Nat → Option Nat)) :
    ∀ (g : Graph) (st : AFState), AFExtends st (afPass f ge g st).2
  | [], st => afExtends_rfl st
  | row :: rest, st => by
    have h1 := afNode_extends f ge row st
    have h2 := afPass_extends f ge rest (afNode f ge row st).2
    simpa [afPass] using afExtends_trans h1 h2

lemma pfExtends_rfl (st : PFState) : PFExtends st st :=
  ⟨⟨[], by simp⟩, ⟨[], by simp⟩, ⟨[], by simp⟩, ⟨[], by simp⟩, ⟨[], by simp⟩,
    ⟨[], by simp⟩, fun _ _ h => h⟩

lemma pfExtends_trans {s1 s2 s3 : PFState}
    (h : PFExtends s1 s2) (h2 : PFExtends s2 s3) : PFExtends s1 s3 := by
  obtain ⟨⟨a1, e1⟩, ⟨a2, e2⟩, ⟨a3, e3⟩, ⟨a4, e4⟩, ⟨a5, e5⟩, ⟨a6, e6⟩, hl⟩ := h
  obtain ⟨⟨b1, d1⟩, ⟨b2, d2⟩, ⟨b3, d3⟩, ⟨b4, d4⟩, ⟨b5, d5⟩, ⟨b6, d6⟩, hl2⟩ := h2
  exact ⟨⟨a1 ++ b1, by simp [d1, e1]⟩, ⟨a2 ++ b2, by simp [d2, e2]⟩,
    ⟨a3 ++ b3, by simp [d3, e3]⟩, ⟨a4 ++ b4, by simp [d4, e4]⟩,
    ⟨a5 ++ b5, by simp [d5, e5]⟩, ⟨a6 ++ b6, by simp [d6, e6]⟩,
    fun a b hab => hl2 a b (hl a b hab)⟩

lemma pfStep_extends (nf : Nat → Bool) (gr : Nat → Option Nat)
    (ge : Nat → Nat → Option Nat) (nid i c : Nat) (st : PFState) :
    PFExtends st (pfStep nf gr ge nid i c st).2.1 := by
  refine pfStep_cases nf gr ge nid i c st (fun t => PFExtends st t.2.1) ?_ ?_ ?_ ?_ ?_ ?_ ?_
  · intro _
    exact pfExtends_rfl st
  · intro r _ _
    exact pfExtends_rfl st
  · intro _ _
    exact ⟨⟨[], by simp⟩, ⟨[], by simp⟩, ⟨[], by simp⟩, ⟨[c], by simp⟩,
      ⟨[], by simp⟩, ⟨[], by simp⟩, fun _ _ h => h⟩
  · intro h2 _ _
    exact ⟨⟨[], by simp⟩, ⟨[], by simp⟩, ⟨[], by simp⟩, ⟨[c], by simp⟩,
      ⟨[c], by simp⟩, ⟨[], by simp⟩, fun a b hab => rlookup_cons_preserve _ h2 hab⟩
  · intro r h2 _ _ _
    exact ⟨⟨[], by simp⟩, ⟨[], by simp⟩, ⟨[], by simp⟩, ⟨[c], by simp⟩,
      ⟨[c], by simp⟩, ⟨[], by simp⟩, fun a b hab => rlookup_cons_preserve _ h2 hab⟩
  · intro _ _ _ _
    exact ⟨⟨[], by simp⟩, ⟨[], by simp⟩, ⟨[], by simp⟩, ⟨[c], by simp⟩,
      ⟨[c], by simp⟩, ⟨[], by simp⟩, fun _ _ h => h⟩
  · intro _ _ _ _
    exact ⟨⟨[c], by simp⟩, ⟨[(c, nid, i)], by simp⟩,
      ⟨evErrors (some ge) [(c, nid, i)], by simp⟩, ⟨[c], by simp⟩,
      ⟨[c], by simp⟩, ⟨[], by simp⟩, fun _ _ h => h⟩

lemma pfInputs_suffix (nf : Nat → Bool) (gr : Nat → Option Nat)
    (ge : Nat → Nat → Option Nat) (nid : Nat) :
    ∀ (ins : List Nat) (i : Nat) (st : PFState),
    PFExtends st (pfInputs nf gr ge nid ins i st).2.1
  | [], _, st => pfExtends_rfl st
  | c :: rest, i, st => by
    have h1 := pfStep_extends nf gr ge nid i c st
    have h2 := pfInputs_suffix nf gr ge nid rest (i + 1) (pfStep nf gr ge nid i c st).2.1
    simpa [pfInputs] using pfExtends_trans h1 h2

lemma pfNode_extends (nf : Nat → Bool) (gr : Nat → Option Nat)
    (ge : Nat → Nat → Option Nat) (row : Nat × List Nat) (st : PFState) :
    PFExtends st (pfNode nf gr ge row st).2 := by
  have h1 := pfInputs_suffix nf gr ge row.1 row.2 0 st
  unfold pfNode
  by_cases h : (pfInputs nf gr ge row.1 row.2 0 st).2.2
  · simp only [h, if_true]
    refine pfExtends_trans h1 ?_
    exact ⟨⟨[], by simp⟩, ⟨[], by simp⟩, ⟨[], by simp⟩, ⟨[], by simp⟩,
      ⟨[], by simp⟩, ⟨[row.1], by simp⟩, fun _ _ hh => hh⟩
  · simpa [h] using h1

lemma pfPass_extends (nf : Nat → Bool) (gr : Nat → Option Nat)
    (ge : Nat → Nat → Option Nat) :
    ∀ (g : Graph) (st : PFState), PFExtends st (pfPass nf gr ge g st).2
  | [], st => pfExtends_rfl st
  | row :: rest, st => by
    have h1 := pfNode_extends nf gr ge row st
    have h2 := pfPass_extends nf gr ge rest (pfNode nf gr ge row st).2
    simpa [pfPass] using pfExtends_trans h1 h2

/-! ## Cache soundness for a pure node fixer -/

lemma afInv_init (f : NodeFixer) : AFInv f AFState.init := by
  constructor
  · intro a b h
    simp [AFState.init, rlookup] at h
  · intro a h
    simp [AFState.init] at h

lemma afInv_insert {f : NodeFixer} {st : AFState} {c r : Nat}
    (h : AFInv f st) (h3 : f c = .node r) :
    ∀ a b, rlookup a ((c, r) :: st.replacements) = some b → f a = .node b := by
  intro a b hab
  rw [rlookup_cons] at hab
  by_cases hac : a = c
  · rw [if_pos hac] at hab
    cases hab
    rw [hac]
    exact h3
  · rw [if_neg hac] at hab
    exact h.1 a b hab

lemma afStep_inv (f : NodeFixer) (ge : Option (Nat → Nat → Option Nat))
    (nid i c : Nat) (st : AFState) (h : AFInv f st) :
    AFInv f (afStep f ge nid i c st).2.1 := by
  refine afStep_cases f ge nid i c st (fun t => AFInv f t.2.1) ?_ ?_ ?_ ?_ ?_ ?_ ?_
  · intro _
    exact h
  · intro _ _
    exact h
  · intro r _ _ _
    exact h
  · intro _ _ h3
    exact ⟨afInv_insert h h3, h.2⟩
  · intro r _ _ h3 _
    exact ⟨afInv_insert h h3, h.2⟩
  · intro _ _ h3
    refine ⟨h.1, ?_⟩
    intro a ha
    rcases List.mem_append.1 ha with ha | ha
    · exact h.2 a ha
    · rw [List.mem_singleton.1 ha]
      exact h3
  · intro _ _ _
    exact h

lemma afInputs_inv (f : NodeFixer) (ge : Option (Nat → Nat → Option Nat))
    (nid : Nat) : ∀ (ins : List Nat) (i : Nat) (st : AFState),
    AFInv f st → AFInv f (afInputs f ge nid ins i st).2.1
  | [], _, _, h => h
  | c :: rest, i, st, h => by
    have h1 := afStep_inv f ge nid i c st h
    have h2 := afInputs_inv f ge nid rest (i + 1) (afStep f ge nid i c st).2.1 h1
    simpa [afInputs] using h2

lemma afNode_inv (f : NodeFixer) (ge : Option (Nat → Nat → Option Nat))
    (row : Nat × List Nat) (st : AFState) (h : AFInv f st) :
    AFInv f (afNode f ge row st).2 := by
  have h1 := afInputs_inv f ge row.1 row.2 0 st h
  unfold afNode
  by_cases hb : (afInputs f ge row.1 row.2 0 st).2.2
  · simpa [hb, AFInv] using h1
  · simpa [hb] using h1

lemma afPass_inv (f : NodeFixer) (ge : Option (Nat → Nat → Option Nat)) :
    ∀ (g : Graph) (st : AFState), AFInv f st → AFInv f (afPass f ge g st).2
  | [], _, h => h
  | row :: rest, st, h => by
    have h1 := afNode_inv f ge row st h
    have h2 := afPass_inv f ge rest (afNode f ge row st).2 h1
    simpa [afPass] using h2

/-! ## Completeness of the caches for a pure node fixer -/

lemma afStep_fatal_mem (f : NodeFixer) (ge : Option (Nat → Nat → Option Nat))
    (nid i c : Nat) (st : AFState) (h : AFInv f st) (hc : f c = .fatal) :
    c ∈ (afStep f ge nid i c st).2.1.reported := by
  refine afStep_cases f ge nid i c st (fun t => c ∈ t.2.1.reported) ?_ ?_ ?_ ?_ ?_ ?_ ?_
  · intro hr
    exact hr
  · intro _ h2
    have := h.1 c c h2
    rw [hc] at this
    cases this
  · intro r _ h2 _
    have := h.1 c r h2
    rw [hc] at this
    cases this
  · intro _ _ h3
    rw [hc] at h3
    cases h3
  · intro r _ _ h3 _
    rw [hc] at h3
    cases h3
  · intro _ _ _
    simp
  · intro _ _ h3
    rcases h3 with h3 | h3 <;> rw [hc] at h3 <;> cases h3

lemma afStep_node_val (f : NodeFixer) (ge : Option (Nat → Nat → Option Nat))
    (nid i c : Nat) (st : AFState) (r : Nat) (h : AFInv f st)
    (hc : f c = .node r) :
    (afStep f ge nid i c st).1 = r
      ∧ rlookup c (afStep f ge nid i c st).2.1.replacements = some r := by
  refine afStep_cases f ge nid i c st
    (fun t => t.1 = r ∧ rlookup c t.2.1.replacements = some r) ?_ ?_ ?_ ?_ ?_ ?_ ?_
  · intro hr
    have := h.2 c hr
    rw [hc] at this
    cases this
  · intro _ h2
    have := h.1 c c h2
    rw [hc] at this
    cases this
    exact ⟨rfl, h2⟩
  · intro b _ h2 _
    have := h.1 c b h2
    rw [hc] at this
    cases this
    exact ⟨rfl, h2⟩
  · intro _ _ h3
    rw [hc] at h3
    cases h3
    constructor
    · rfl
    · simp [rlookup_cons]
  · intro b _ _ h3 _
    rw [hc] at h3
    cases h3
    constructor
    · rfl
    · simp [rlookup_cons]
  · intro _ _ h3
    rw [hc] at h3
    cases h3
  · intro _ _ h3
    rcases h3 with h3 | h3 <;> rw [hc] at h3 <;> cases h3

lemma AFExtends.mem_reported {st st2 : AFState} (h : AFExtends st st2)
    {a : Nat} (ha : a ∈ st.reported) : a ∈ st2.reported := by
  obtain ⟨⟨l, hl⟩, _⟩ := h
  rw [hl]
  exact List.mem_append_left _ ha

lemma AFExtends.lookup {st st2 : AFState} (h : AFExtends st st2)
    {a b : Nat} (ha : rlookup a st.replacements = some b) :
    rlookup a st2.replacements = some b :=
  h.2.2.2.2.2.1 a b ha

lemma afInputs_fatal_mem (f : NodeFixer) (ge : Option (Nat → Nat → Option Nat))
    (nid c : Nat) (hc : f c = .fatal) :
    ∀ (ins : List Nat) (i : Nat) (st : AFState), AFInv f st → c ∈ ins →
    c ∈ (afInputs f ge nid ins i st).2.1.reported
  | [], _, _, _, hmem => by cases hmem
  | d :: rest, i, st, h, hmem => by
    rcases List.mem_cons.1 hmem with he | hmem2
    · subst he
      have h1 := afStep_fatal_mem f ge nid i c st h hc
      have h2 := afInputs_suffix f ge nid rest (i + 1) (afStep f ge nid i c st).2.1
      simpa [afInputs] using h2.mem_reported h1
    · have h1 := afStep_inv f ge nid i d st h
      have h2 := afInputs_fatal_mem f ge nid c hc rest (i + 1)
        (afStep f ge nid i d st).2.1 h1 hmem2
      simpa [afInputs] using h2

lemma afNode_fatal_mem (f : NodeFixer) (ge : Option (Nat → Nat → Option Nat))
    (row : Nat × List Nat) (st : AFState) (c : Nat) (h : AFInv f st)
    (hc : f c = .fatal) (hmem : c ∈ row.2) :
    c ∈ (afNode f ge row st).2.reported := by
  have h1 := afInputs_fatal_mem f ge row.1 c hc row.2 0 st h hmem
  unfold afNode
  by_cases hb : (afInputs f ge row.1 row.2 0 st).2.2
  · simpa [hb] using h1
  · simpa [hb] using h1

lemma afPass_fatal_mem (f : NodeFixer) (ge : Option (Nat → Nat → Option Nat))
    (c : Nat) (hc : f c = .fatal) :
    ∀ (g : Graph) (st : AFState), AFInv f st →
    (∃ row ∈ g, c ∈ row.2) → c ∈ (afPass f ge g st).2.reported
  | [], _, _, hocc => by
    obtain ⟨row, hrow, _⟩ := hocc
    cases hrow
  | row :: rest, st, h, hocc => by
    obtain ⟨row2, hrow2, hmem⟩ := hocc
    rcases List.mem_cons.1 hrow2 with he | hrow3
    · subst he
      have h1 := afNode_fatal_mem f ge row2 st c h hc hmem
      have h2 := afPass_extends f ge rest (afNode f ge row2 st).2
      simpa [afPass] using h2.mem_reported h1
    · have h1 := afNode_inv f ge row st h
      have h2 := afPass_fatal_mem f ge c hc rest (afNode f ge row st).2 h1
        ⟨row2, hrow3, hmem⟩
      simpa [afPass] using h2

lemma afInputs_node_lookup (f : NodeFixer) (ge : Option (Nat → Nat → Option Nat))
    (nid c r : Nat) (hc : f c = .node r) :
    ∀ (ins : List Nat) (i : Nat) (st : AFState), AFInv f st → c ∈ ins →
    rlookup c (afInputs f ge nid ins i st).2.1.replacements = some r
  | [], _, _, _, hmem => by cases hmem
  | d :: rest, i, st, h, hmem => by
    rcases List.mem_cons.1 hmem with he | hmem2
    · subst he
      have h1 := (afStep_node_val f ge nid i c st r h hc).2
      have h2 := afInputs_suffix f ge nid rest (i + 1) (afStep f ge nid i c st).2.1
      simpa [afInputs] using h2.lookup h1
    · have h1 := afStep_inv f ge nid i d st h
      have h2 := afInputs_node_lookup f ge nid c r hc rest (i + 1)
        (afStep f ge nid i d st).2.1 h1 hmem2
      simpa [afInputs] using h2

lemma afNode_node_lookup (f : NodeFixer) (ge : Option (Nat → Nat → Option Nat))
    (row : Nat × List Nat) (st : AFState) (c r : Nat) (h : AFInv f st)
    (hc : f c = .node r) (hmem : c ∈ row.2) :
    rlookup c (afNode f ge row st).2.replacements = some r := by
  have h1 := afInputs_node_lookup f ge row.1 c r hc row.2 0 st h hmem
  unfold afNode
  by_cases hb : (afInputs f ge row.1 row.2 0 st).2.2
  · simpa [hb] using h1
  · simpa [hb] using h1

lemma afPass_node_lookup (f : NodeFixer) (ge : Option (Nat → Nat → Option Nat))
    (c r : Nat) (hc : f c = .node r) :
    ∀ (g : Graph) (st : AFState), AFInv f st → (∃ row ∈ g, c ∈ row.2) →
    rlookup c (afPass f ge g st).2.replacements = some r
  | [], _, _, hocc => by
    obtain ⟨row, hrow, _⟩ := hocc
    cases hrow
  | row :: rest, st, h, hocc => by
    obtain ⟨row2, hrow2, hmem⟩ := hocc
    rcases List.mem_cons.1 hrow2 with he | hrow3
    · subst he
      have h1 := afNode_node_lookup f ge row2 st c r h hc hmem
      have h2 := afPass_extends f ge rest (afNode f ge row2 st).2
      simpa [afPass] using h2.lookup h1
    · have h1 := afNode_inv f ge row st h
      have h2 := afPass_node_lookup f ge c r hc rest (afNode f ge row st).2 h1
        ⟨row2, hrow3, hmem⟩
      simpa [afPass] using h2

/-! ## Pointwise rewriting of the edges aimed at a fixed child -/

lemma afInputs_pointwise (f : NodeFixer) (ge : Option (Nat → Nat → Option Nat))
    (nid c r : Nat) (hc : f c = .node r) :
    ∀ (ins : List Nat) (i : Nat) (st : AFState), AFInv f st →
    List.Forall₂ (fun a b => a = c → b = r) ins (afInputs f ge nid ins i st).1
  | [], _, _, _ => by simp [afInputs]
  | d :: rest, i, st, h => by
    have hrec := afInputs_pointwise f ge nid c r hc rest (i + 1)
      (afStep f ge nid i d st).2.1 (afStep_inv f ge nid i d st h)
    have hhead : d = c → (afStep f ge nid i d st).1 = r := by
      intro he
      subst he
      exact (afStep_node_val f ge nid i d st r h hc).1
    simpa [afInputs] using List.Forall₂.cons hhead hrec

lemma afNode_pointwise (f : NodeFixer) (ge : Option (Nat → Nat → Option Nat))
    (row : Nat × List Nat) (st : AFState) (c r : Nat) (h : AFInv f st)
    (hc : f c = .node r) :
    (afNode f ge row st).1.1 = row.1
      ∧ List.Forall₂ (fun a b => a = c → b = r) row.2 (afNode f ge row st).1.2 := by
  exact ⟨rfl, afInputs_pointwise f ge row.1 c r hc row.2 0 st h⟩

lemma afPass_pointwise (f : NodeFixer) (ge : Option (Nat → Nat → Option Nat))
    (c r : Nat) (hc : f c = .node r) :
    ∀ (g : Graph) (st : AFState), AFInv f st →
    List.Forall₂ (fun rowO rowN => rowO.1 = rowN.1
      ∧ List.Forall₂ (fun a b => a = c → b = r) rowO.2 rowN.2)
      g (afPass f ge g st).1
  | [], _, _ => by simp [afPass]
  | row :: rest, st, h => by
    have hhead := afNode_pointwise f ge row st c r h hc
    have hrec := afPass_pointwise f ge c r hc rest (afNode f ge row st).2
      (afNode_inv f ge row st h)
    simpa [afPass] using List.Forall₂.cons ⟨hhead.1.symm, hhead.2⟩ hrec

/-- Node identities and node count are preserved by a pass. -/
lemma afPass_map_fst (f : NodeFixer) (ge : Option (Nat → Nat → Option Nat)) :
    ∀ (g : Graph) (st : AFState),
    (afPass f ge g st).1.map Prod.fst = g.map Prod.fst
  | [], _ => by simp [afPass]
  | row :: rest, st => by
    have hrec := afPass_map_fst f ge rest (afNode f ge row st).2
    simp only [afPass, List.map_cons, hrec]
    simp [afNode]

/-! ## At-most-once invocation counting -/

lemma count_append_singleton (l : List Nat) (c d : Nat) :
    (l ++ [d]).count c = l.count c + if d = c then 1 else 0 := by
  simp [List.count_append, List.count_singleton']

lemma afStep_count (f : NodeFixer) (ge : Option (Nat → Nat → Option Nat))
    (nid i d : Nat) (st : AFState) (c : Nat)
    (hdec : f c ≠ .inapplicable ∧ f c ≠ NodeFixerResult.none)
    (h : AFCount c st) : AFCount c (afStep f ge nid i d st).2.1 := by
  refine afStep_cases f ge nid i d st (fun t => AFCount c t.2.1) ?_ ?_ ?_ ?_ ?_ ?_ ?_
  · intro _
    exact h
  · intro _ _
    exact h
  · intro r _ _ _
    exact h
  · intro hrep h2 _
    by_cases hcd : c = d
    · subst hcd
      have h0 := h.2 h2 hrep
      constructor
      · simp [count_append_singleton, h0]
      · intro hl _
        rw [rlookup_cons] at hl
        simp at hl
    · constructor
      · simp [count_append_singleton, hcd, h.1]
      · intro hl hr
        rw [rlookup_cons] at hl
        rw [if_neg hcd] at hl
        simp [count_append_singleton, hcd, h.2 hl hr]
  · intro r hrep h2 _ _
    by_cases hcd : c = d
    · subst hcd
      have h0 := h.2 h2 hrep
      constructor
      · simp [count_append_singleton, h0]
      · intro hl _
        rw [rlookup_cons] at hl
        simp at hl
    · constructor
      · simp [count_append_singleton, hcd, h.1]
      · intro hl hr
        rw [rlookup_cons] at hl
        rw [if_neg hcd] at hl
        simp [count_append_singleton, hcd, h.2 hl hr]
  · intro hrep h2 _
    by_cases hcd : c = d
    · subst hcd
      have h0 := h.2 h2 hrep
      constructor
      · simp [count_append_singleton, h0]
      · intro _ hr
        simp at hr
    · constructor
      · simp [count_append_singleton, hcd, h.1]
      · intro hl hr
        have hr2 : c ∉ st.reported := by
          intro hmem
          exact hr (List.mem_append_left _ hmem)
        simp [count_append_singleton, hcd, h.2 hl hr2]
  · intro _ _ h3
    by_cases hcd : c = d
    · subst hcd
      rcases h3 with h3 | h3
      · exact absurd h3 hdec.2
      · exact absurd h3 hdec.1
    · constructor
      · simp [count_append_singleton, hcd, h.1]
      · intro hl hr
        simp [count_append_singleton, hcd, h.2 hl hr]

lemma afInputs_count (f : NodeFixer) (ge : Option (Nat → Nat → Option Nat))
    (nid c : Nat) (hdec : f c ≠ .inapplicable ∧ f c ≠ NodeFixerResult.none) :
    ∀ (ins : List Nat) (i : Nat) (st : AFState), AFCount c st →
    AFCount c (afInputs f ge nid ins i st).2.1
  | [], _, _, h => h
  | d :: rest, i, st, h => by
    have h1 := afStep_count f ge nid i d st c hdec h
    have h2 := afInputs_count f ge nid c hdec rest (i + 1)
      (afStep f ge nid i d st).2.1 h1
    simpa [afInputs] using h2

lemma afNode_count (f : NodeFixer) (ge : Option (Nat → Nat → Option Nat))
    (row : Nat × List Nat) (st : AFState) (c : Nat)
    (hdec : f c ≠ .inapplicable ∧ f c ≠ NodeFixerResult.none)
    (h : AFCount c st) : AFCount c (afNode f ge row st).2 := by
  have h1 := afInputs_count f ge row.1 c hdec row.2 0 st h
  unfold afNode
  by_cases hb : (afInputs f ge row.1 row.2 0 st).2.2
  · simpa [hb, AFCount] using h1
  · simpa [hb] using h1

lemma afPass_count (f : NodeFixer) (ge : Option (Nat → Nat → Option Nat))
    (c : Nat) (hdec : f c ≠ .inapplicable ∧ f c ≠ NodeFixerResult.none) :
    ∀ (g : Graph) (st : AFState), AFCount c st → AFCount c (afPass f ge g st).2
  | [], _, h => h
  | row :: rest, st, h => by
    have h1 := afNode_count f ge row st c hdec h
    have h2 := afPass_count f ge c hdec rest (afNode f ge row st).2 h1
    simpa [afPass] using h2

lemma afCount_init (c : Nat) : AFCount c AFState.init := by
  constructor
  · simp [AFState.init]
  · intro _ _
    simp [AFState.init]

/-! ## The update flag records exactly whether the edge value changed -/

lemma afStep_updEq (f : NodeFixer) (ge : Option (Nat → Nat → Option Nat))
    (nid i c : Nat) (st : AFState) :
    (afStep f ge nid i c st).2.2 = decide (¬ (afStep f ge nid i c st).1 = c) := by
  refine afStep_cases f ge nid i c st (fun t => t.2.2 = decide (¬ t.1 = c)) ?_ ?_ ?_ ?_ ?_ ?_ ?_
  · intro _
    simp
  · intro _ _
    simp
  · intro r _ _ hc
    have hrc : ¬ r = c := fun e => hc e.symm
    simp [hrc]
  · intro _ _ _
    simp
  · intro r _ _ _ hc
    have hrc : ¬ r = c := fun e => hc e.symm
    simp [hrc]
  · intro _ _ _
    simp
  · intro _ _ _
    simp

lemma afInputs_updEq (f : NodeFixer) (ge : Option (Nat → Nat → Option Nat))
    (nid : Nat) : ∀ (ins : List Nat) (i : Nat) (st : AFState),
    (afInputs f ge nid ins i st).2.2
      = decide (¬ (afInputs f ge nid ins i st).1 = ins)
  | [], _, st => by simp [afInputs]
  | c :: rest, i, st => by
    have h1 := afStep_updEq f ge nid i c st
    have h2 := afInputs_updEq f ge nid rest (i + 1) (afStep f ge nid i c st).2.1
    simp only [afInputs]
    by_cases hA : (afStep f ge nid i c st).1 = c <;>
      by_cases hB :
        (afInputs f ge nid rest (i + 1) (afStep f ge nid i c st).2.1).1 = rest <;>
      simp [h1, h2, hA, hB]

lemma pfStep_updEq (nf : Nat → Bool) (gr : Nat → Option Nat)
    (ge : Nat → Nat → Option Nat) (nid i c : Nat) (st : PFState) :
    (pfStep nf gr ge nid i c st).2.2
      = decide (¬ (pfStep nf gr ge nid i c st).1 = c) := by
  refine pfStep_cases nf gr ge nid i c st (fun t => t.2.2 = decide (¬ t.1 = c)) ?_ ?_ ?_ ?_ ?_ ?_ ?_
  · intro _
    simp
  · intro r _ hc
    have hrc : ¬ r = c := fun e => hc e.symm
    simp [hrc]
  · intro _ _
    simp
  · intro _ _ _
    simp
  · intro r _ _ _ hc
    have hrc : ¬ r = c := fun e => hc e.symm
    simp [hrc]
  · intro _ _ _ _
    simp
  · intro _ _ _ _
    simp

lemma pfInputs_updEq (nf : Nat → Bool) (gr : Nat → Option Nat)
    (ge : Nat → Nat → Option Nat) (nid : Nat) :
    ∀ (ins : List Nat) (i : Nat) (st : PFState),
    (pfInputs nf gr ge nid ins i st).2.2
      = decide (¬ (pfInputs nf gr ge nid ins i st).1 = ins)
  | [], _, st => by simp [pfInputs]
  | c :: rest, i, st => by
    have h1 := pfStep_updEq nf gr ge nid i c st
    have h2 := pfInputs_updEq nf gr ge nid rest (i + 1) (pfStep nf gr ge nid i c st).2.1
    simp only [pfInputs]
    by_cases hA : (pfStep nf gr ge nid i c st).1 = c <;>
      by_cases hB :
        (pfInputs nf gr ge nid rest (i + 1) (pfStep nf gr ge nid i c st).2.1).1 = rest <;>
      simp [h1, h2, hA, hB]

/-! ## The typer trace -/

lemma afStep_typer (f : NodeFixer) (ge : Option (Nat → Nat → Option Nat))
    (nid i c : Nat) (st : AFState) :
    (afStep f ge nid i c st).2.1.typerCalls = st.typerCalls := by
  refine afStep_cases f ge nid i c st (fun t => t.2.1.typerCalls = st.typerCalls)
    ?_ ?_ ?_ ?_ ?_ ?_ ?_ <;> intros <;> rfl

lemma afInputs_typer (f : NodeFixer) (ge : Option (Nat → Nat → Option Nat))
    (nid : Nat) : ∀ (ins : List Nat) (i : Nat) (st : AFState),
    (afInputs f ge nid ins i st).2.1.typerCalls = st.typerCalls
  | [], _, _ => rfl
  | c :: rest, i, st => by
    have h1 := afStep_typer f ge nid i c st
    have h2 := afInputs_typer f ge nid rest (i + 1) (afStep f ge nid i c st).2.1
    simp only [afInputs]
    rw [h2, h1]

lemma afNode_typer (f : NodeFixer) (ge : Option (Nat → Nat → Option Nat))
    (row : Nat × List Nat) (st : AFState) :
    (afNode f ge row st).2.typerCalls
      = st.typerCalls
        ++ (if (afNode f ge row st).1.2 = row.2 then [] else [row.1]) := by
  have h1 := afInputs_updEq f ge row.1 row.2 0 st
  have h2 := afInputs_typer f ge row.1 row.2 0 st
  unfold afNode
  by_cases hb : (afInputs f ge row.1 row.2 0 st).1 = row.2
  · simp [hb] at h1
    simp [h1, hb, h2]
  · simp [hb] at h1
    simp [h1, hb, h2]

lemma pfStep_typer (nf : Nat → Bool) (gr : Nat → Option Nat)
    (ge : Nat → Nat → Option Nat) (nid i c : Nat) (st : PFState) :
    (pfStep nf gr ge nid i c st).2.1.typerCalls = st.typerCalls := by
  refine pfStep_cases nf gr ge nid i c st (fun t => t.2.1.typerCalls = st.typerCalls)
    ?_ ?_ ?_ ?_ ?_ ?_ ?_ <;> intros <;> rfl

lemma pfInputs_typer (nf : Nat → Bool) (gr : Nat → Option Nat)
    (ge : Nat → Nat → Option Nat) (nid : Nat) :
    ∀ (ins : List Nat) (i : Nat) (st : PFState),
    (pfInputs nf gr ge nid ins i st).2.1.typerCalls = st.typerCalls
  | [], _, _ => rfl
  | c :: rest, i, st => by
    have h1 := pfStep_typer nf gr ge nid i c st
    have h2 := pfInputs_typer nf gr ge nid rest (i + 1) (pfStep nf gr ge nid i c st).2.1
    simp only [pfInputs]
    rw [h2, h1]

lemma pfNode_typer (nf : Nat → Bool) (gr : Nat → Option Nat)
    (ge : Nat → Nat → Option Nat) (row : Nat × List Nat) (st : PFState) :
    (pfNode nf gr ge row st).2.typerCalls
      = st.typerCalls
        ++ (if (pfNode nf gr ge row st).1.2 = row.2 then [] else [row.1]) := by
  have h1 := pfInputs_updEq nf gr ge row.1 row.2 0 st
  have h2 := pfInputs_typer nf gr ge row.1 row.2 0 st
  unfold pfNode
  by_cases hb : (pfInputs nf gr ge row.1 row.2 0 st).1 = row.2
  · simp [hb] at h1
    simp [h1, hb, h2]
  · simp [hb] at h1
    simp [h1, hb, h2]

/-! ## Progress is equivalent to a changed graph -/

lemma afStep_prog (f : NodeFixer) (ge : Option (Nat → Nat → Option Nat))
    (nid i c : Nat) (st : AFState) (h : AFProg st) :
    AFProg (afStep f ge nid i c st).2.1
    ∧ (afStep f ge nid i c st).2.1.progress
        = (st.progress || (afStep f ge nid i c st).2.2) := by
  refine afStep_cases f ge nid i c st
    (fun t => AFProg t.2.1 ∧ t.2.1.progress = (st.progress || t.2.2)) ?_ ?_ ?_ ?_ ?_ ?_ ?_
  · intro _
    exact ⟨h, by simp⟩
  · intro _ _
    exact ⟨h, by simp⟩
  · intro r _ h2 hc
    have hp := h c r h2 hc
    exact ⟨h, by simp [hp]⟩
  · intro _ _ _
    constructor
    · intro a b hab hne
      rw [rlookup_cons] at hab
      by_cases hac : a = c
      · rw [if_pos hac] at hab
        cases hab
        exact absurd hac hne
      · rw [if_neg hac] at hab
        exact h a b hab hne
    · simp
  · intro r _ _ _ _
    constructor
    · intro a b _ _
      rfl
    · simp
  · intro _ _ _
    exact ⟨h, by simp⟩
  · intro _ _ _
    exact ⟨h, by simp⟩

lemma afInputs_prog (f : NodeFixer) (ge : Option (Nat → Nat → Option Nat))
    (nid : Nat) : ∀ (ins : List Nat) (i : Nat) (st : AFState), AFProg st →
    AFProg (afInputs f ge nid ins i st).2.1
    ∧ (afInputs f ge nid ins i st).2.1.progress
        = (st.progress || (afInputs f ge nid ins i st).2.2)
  | [], _, st, h => ⟨h, by simp [afInputs]⟩
  | c :: rest, i, st, h => by
    obtain ⟨hs, hps⟩ := afStep_prog f ge nid i c st h
    obtain ⟨ht, hpt⟩ := afInputs_prog f ge nid rest (i + 1) (afStep f ge nid i c st).2.1 hs
    refine ⟨by simpa [afInputs] using ht, ?_⟩
    simp only [afInputs]
    rw [hpt, hps, Bool.or_assoc]

lemma afNode_prog (f : NodeFixer) (ge : Option (Nat → Nat → Option Nat))
    (row : Nat × List Nat) (st : AFState) (h : AFProg st) :
    AFProg (afNode f ge row st).2
    ∧ (afNode f ge row st).2.progress
        = (st.progress || decide (¬ (afNode f ge row st).1.2 = row.2)) := by
  obtain ⟨ht, hpt⟩ := afInputs_prog f ge row.1 row.2 0 st h
  have hu := afInputs_updEq f ge row.1 row.2 0 st
  simp only [afNode]
  by_cases hb : (afInputs f ge row.1 row.2 0 st).2.2
  · rw [if_pos hb]
    exact ⟨fun a b hab hne => ht a b hab hne, by rw [hpt, hu]⟩
  · rw [if_neg hb]
    exact ⟨ht, by rw [hpt, hu]⟩

lemma afPass_prog (f : NodeFixer) (ge : Option (Nat → Nat → Option Nat)) :
    ∀ (g : Graph) (st : AFState), AFProg st →
    AFProg (afPass f ge g st).2
    ∧ (afPass f ge g st).2.progress
        = (st.progress || decide (¬ (afPass f ge g st).1 = g))
  | [], st, h => ⟨h, by simp [afPass]⟩
  | row :: rest, st, h => by
    obtain ⟨hs, hps⟩ := afNode_prog f ge row st h
    obtain ⟨ht, hpt⟩ := afPass_prog f ge rest (afNode f ge row st).2 hs
    refine ⟨by simpa [afPass] using ht, ?_⟩
    simp only [afPass]
    rw [hpt, hps, Bool.or_assoc]
    by_cases hA : (afNode f ge row st).1.2 = row.2 <;>
      by_cases hB : (afPass f ge rest (afNode f ge row st).2).1 = rest <;>
      · have hA2 : ((afNode f ge row st).1 = row) ↔ ((afNode f ge row st).1.2 = row.2) := by
          constructor
          · intro he
            rw [he]
          · intro he
            have : (afNode f ge row st).1 = (row.1, row.2) := by
              rw [Prod.ext_iff]
              exact ⟨rfl, he⟩
            simpa using this
        simp [hA, hB, hA2]

/-! ## A fixer that only self-returns or declines leaves everything alone -/

lemma afStep_triv (f : NodeFixer) (ge : Option (Nat → Nat → Option Nat))
    (nid i c : Nat) (st : AFState)
    (hid : f c = .node c ∨ f c = .inapplicable) (h : AFTriv st) :
    (afStep f ge nid i c st).1 = c ∧ (afStep f ge nid i c st).2.2 = false
    ∧ AFTriv (afStep f ge nid i c st).2.1 := by
  refine afStep_cases f ge nid i c st
    (fun t => t.1 = c ∧ t.2.2 = false ∧ AFTriv t.2.1) ?_ ?_ ?_ ?_ ?_ ?_ ?_
  · intro hrep
    rw [h.1] at hrep
    cases hrep
  · intro _ _
    exact ⟨rfl, rfl, h⟩
  · intro r _ h2 hc
    have := h.2.2.2 c r h2
    exact absurd this (fun e => hc e.symm)
  · intro _ _ _
    refine ⟨rfl, rfl, h.1, h.2.1, h.2.2.1, ?_⟩
    intro a b hab
    rw [rlookup_cons] at hab
    by_cases hac : a = c
    · rw [if_pos hac] at hab
      cases hab
      exact hac.symm
    · rw [if_neg hac] at hab
      exact h.2.2.2 a b hab
  · intro r _ _ h3 hc
    rcases hid with hx | hx
    · rw [h3] at hx
      cases hx
      exact absurd rfl hc
    · rw [h3] at hx
      cases hx
  · intro _ _ h3
    rcases hid with hx | hx <;> rw [h3] at hx <;> cases hx
  · intro _ _ _
    exact ⟨rfl, rfl, h.1, h.2.1, h.2.2.1, h.2.2.2⟩

lemma afInputs_triv (f : NodeFixer) (ge : Option (Nat → Nat → Option Nat))
    (nid : Nat) : ∀ (ins : List Nat),
    (∀ x ∈ ins, f x = .node x ∨ f x = .inapplicable) →
    ∀ (i : Nat) (st : AFState), AFTriv st →
    (afInputs f ge nid ins i st).1 = ins ∧ (afInputs f ge nid ins i st).2.2 = false
    ∧ AFTriv (afInputs f ge nid ins i st).2.1
  | [], _, _, st, h => ⟨rfl, rfl, h⟩
  | c :: rest, hid, i, st, h => by
    obtain ⟨he, hu, hs⟩ := afStep_triv f ge nid i c st
      (hid c (List.mem_cons_self c rest)) h
    obtain ⟨he2, hu2, hs2⟩ :=
      afInputs_triv f ge nid rest (fun x hx => hid x (List.mem_cons_of_mem c hx))
        (i + 1) (afStep f ge nid i c st).2.1 hs
    simp only [afInputs]
    exact ⟨by rw [he, he2], by simp [hu, hu2], hs2⟩

lemma afNode_triv (f : NodeFixer) (ge : Option (Nat → Nat → Option Nat))
    (row : Nat × List Nat) (st : AFState)
    (hid : ∀ x ∈ row.2, f x = .node x ∨ f x = .inapplicable) (h : AFTriv st) :
    (afNode f ge row st).1 = row ∧ AFTriv (afNode f ge row st).2 := by
  obtain ⟨he, hu, hs⟩ := afInputs_triv f ge row.1 row.2 hid 0 st h
  simp only [afNode]
  rw [hu]
  simp only [Bool.false_eq_true, if_false]
  exact ⟨by rw [he], hs⟩

lemma afPass_triv (f : NodeFixer) (ge : Option (Nat → Nat → Option Nat)) :
    ∀ (g : Graph),
    (∀ row ∈ g, ∀ x ∈ row.2, f x = .node x ∨ f x = .inapplicable) →
    ∀ (st : AFState), AFTriv st →
    (afPass f ge g st).1 = g ∧ AFTriv (afPass f ge g st).2
  | [], _, _, h => ⟨rfl, h⟩
  | row :: rest, hid, st, h => by
    obtain ⟨he, hs⟩ := afNode_triv f ge row st
      (hid row (List.mem_cons_self row rest)) h
    obtain ⟨he2, hs2⟩ := afPass_triv f ge rest
      (fun r hr => hid r (List.mem_cons_of_mem row hr)) (afNode f ge row st).2 hs
    simp only [afPass]
    exact ⟨by rw [he, he2], hs2⟩

lemma afTriv_init : AFTriv AFState.init := by
  refine ⟨rfl, rfl, rfl, ?_⟩
  intro a b hab
  simp [AFState.init, rlookup] at hab

lemma afProg_init : AFProg AFState.init := by
  intro a b hab
  simp [AFState.init, rlookup] at hab

/-! ## Events, the reported set, and the error report -/

lemma afEv_init (ge : Option (Nat → Nat → Option Nat)) : AFEv ge AFState.init :=
  ⟨rfl, List.nodup_nil, rfl⟩

lemma evErrors_append (ge : Option (Nat → Nat → Option Nat))
    (l l2 : List (Nat × Nat × Nat)) :
    evErrors ge (l ++ l2) = evErrors ge l ++ evErrors ge l2 := by
  simp [evErrors, List.filterMap_append]

lemma afStep_ev (f : NodeFixer) (ge : Option (Nat → Nat → Option Nat))
    (nid i c : Nat) (st : AFState) (h : AFEv ge st) :
    AFEv ge (afStep f ge nid i c st).2.1 := by
  refine afStep_cases f ge nid i c st (fun t => AFEv ge t.2.1) ?_ ?_ ?_ ?_ ?_ ?_ ?_
  · intro _
    exact h
  · intro _ _
    exact h
  · intro r _ _ _
    exact h
  · intro _ _ _
    exact h
  · intro r _ _ _ _
    exact h
  · intro hrep _ _
    refine ⟨?_, ?_, ?_⟩
    · simp only [List.map_append, h.1]
      rfl
    · rw [List.nodup_append]
      refine ⟨h.2.1, List.nodup_singleton c, ?_⟩
      intro a ha hb
      rw [List.mem_singleton] at hb
      subst hb
      exact hrep ha
    · rw [evErrors_append, h.2.2]
  · intro _ _ _
    exact h

lemma afInputs_ev (f : NodeFixer) (ge : Option (Nat → Nat → Option Nat))
    (nid : Nat) : ∀ (ins : List Nat) (i : Nat) (st : AFState), AFEv ge st →
    AFEv ge (afInputs f ge nid ins i st).2.1
  | [], _, _, h => h
  | c :: rest, i, st, h => by
    have h1 := afStep_ev f ge nid i c st h
    have h2 := afInputs_ev f ge nid rest (i + 1) (afStep f ge nid i c st).2.1 h1
    simpa [afInputs] using h2

lemma afNode_ev (f : NodeFixer) (ge : Option (Nat → Nat → Option Nat))
    (row : Nat × List Nat) (st : AFState) (h : AFEv ge st) :
    AFEv ge (afNode f ge row st).2 := by
  have h1 := afInputs_ev f ge row.1 row.2 0 st h
  simp only [afNode]
  by_cases hb : (afInputs f ge row.1 row.2 0 st).2.2
  · rw [if_pos hb]
    exact h1
  · rw [if_neg hb]
    exact h1

lemma afPass_ev (f : NodeFixer) (ge : Option (Nat → Nat → Option Nat)) :
    ∀ (g : Graph) (st : AFState), AFEv ge st → AFEv ge (afPass f ge g st).2
  | [], _, h => h
  | row :: rest, st, h => by
    have h1 := afNode_ev f ge row st h
    have h2 := afPass_ev f ge rest (afNode f ge row st).2 h1
    simpa [afPass] using h2

lemma pfEv_init (ge : Nat → Nat → Option Nat) : PFEv ge PFState.init :=
  ⟨rfl, List.nodup_nil, rfl⟩

lemma pfStep_ev (nf : Nat → Bool) (gr : Nat → Option Nat)
    (ge : Nat → Nat → Option Nat) (nid i c : Nat) (st : PFState)
    (h : PFEv ge st) : PFEv ge (pfStep nf gr ge nid i c st).2.1 := by
  refine pfStep_cases nf gr ge nid i c st (fun t => PFEv ge t.2.1) ?_ ?_ ?_ ?_ ?_ ?_ ?_
  · intro _
    exact h
  · intro r _ _
    exact h
  · intro _ _
    exact h
  · intro _ _ _
    exact h
  · intro r _ _ _ _
    exact h
  · intro _ _ _ _
    exact h
  · intro _ _ _ hrep
    refine ⟨?_, ?_, ?_⟩
    · simp only [List.map_append, h.1]
      rfl
    · rw [List.nodup_append]
      refine ⟨h.2.1, List.nodup_singleton c, ?_⟩
      intro a ha hb
      rw [List.mem_singleton] at hb
      subst hb
      exact hrep ha
    · rw [evErrors_append, h.2.2]

lemma pfInputs_ev (nf : Nat → Bool) (gr : Nat → Option Nat)
    (ge : Nat → Nat → Option Nat) (nid : Nat) :
    ∀ (ins : List Nat) (i : Nat) (st : PFState), PFEv ge st →
    PFEv ge (pfInputs nf gr ge nid ins i st).2.1
  | [], _, _, h => h
  | c :: rest, i, st, h => by
    have h1 := pfStep_ev nf gr ge nid i c st h
    have h2 := pfInputs_ev nf gr ge nid rest (i + 1) (pfStep nf gr ge nid i c st).2.1 h1
    simpa [pfInputs] using h2

lemma pfNode_ev (nf : Nat → Bool) (gr : Nat → Option Nat)
    (ge : Nat → Nat → Option Nat) (row : Nat × List Nat) (st : PFState)
    (h : PFEv ge st) : PFEv ge (pfNode nf gr ge row st).2 := by
  have h1 := pfInputs_ev nf gr ge row.1 row.2 0 st h
  simp only [pfNode]
  by_cases hb : (pfInputs nf gr ge row.1 row.2 0 st).2.2
  · rw [if_pos hb]
    exact h1
  · rw [if_neg hb]
    exact h1

lemma pfPass_ev (nf : Nat → Bool) (gr : Nat → Option Nat)
    (ge : Nat → Nat → Option Nat) :
    ∀ (g : Graph) (st : PFState), PFEv ge st → PFEv ge (pfPass nf gr ge g st).2
  | [], _, h => h
  | row :: rest, st, h => by
    have h1 := pfNode_ev nf gr ge row st h
    have h2 := pfPass_ev nf gr ge rest (pfNode nf gr ge row st).2 h1
    simpa [pfPass] using h2

/-! ## Refinement: the template-method driver simulates the functional one -/

lemma needsFixingOf_node_self {f : NodeFixer} {c : Nat} (h : f c = .node c) :
    needsFixingOf f c = false := by
  simp [needsFixingOf, h]

lemma needsFixingOf_node_ne {f : NodeFixer} {c r : Nat} (h : f c = .node r)
    (hne : ¬ c = r) : needsFixingOf f c = true := by
  simp [needsFixingOf, h]
  exact fun e => hne e.symm

lemma needsFixingOf_fatal {f : NodeFixer} {c : Nat} (h : f c = .fatal) :
    needsFixingOf f c = true := by
  simp [needsFixingOf, h]

lemma needsFixingOf_skip {f : NodeFixer} {c : Nat}
    (h : f c = NodeFixerResult.none ∨ f c = .inapplicable) :
    needsFixingOf f c = false := by
  rcases h with h | h <;> simp [needsFixingOf, h]

lemma getReplacementOf_node_ne {f : NodeFixer} {c r : Nat} (h : f c = .node r)
    (hne : ¬ r = c) : getReplacementOf f c = some r := by
  simp [getReplacementOf, h, hne]

lemma getReplacementOf_fatal {f : NodeFixer} {c : Nat} (h : f c = .fatal) :
    getReplacementOf f c = Option.none := by
  simp [getReplacementOf, h]

lemma equiv_lookup_none {f : NodeFixer} {sA : AFState} {sP : PFState}
    (h : EquivInv f sA sP) {c : Nat}
    (hA : rlookup c sA.replacements = Option.none) :
    rlookup c sP.replacements = Option.none := by
  rcases hp : rlookup c sP.replacements with _ | b
  · rfl
  · obtain ⟨hA2, _⟩ := (h.lkp c b).1 hp
    rw [hA] at hA2
    cases hA2

lemma equiv_lookup_self {f : NodeFixer} {sA : AFState} {sP : PFState}
    (h : EquivInv f sA sP) {c : Nat}
    (hA : rlookup c sA.replacements = some c) :
    rlookup c sP.replacements = Option.none := by
  rcases hp : rlookup c sP.replacements with _ | b
  · rfl
  · obtain ⟨hA2, hbc⟩ := (h.lkp c b).1 hp
    rw [hA] at hA2
    cases hA2
    exact absurd rfl hbc

lemma equiv_step (f : NodeFixer) (ge : Nat → Nat → Option Nat)
    (nid i c : Nat) (sA : AFState) (sP : PFState) (h : EquivInv f sA sP) :
    (afStep f (some ge) nid i c sA).1
      = (pfStep (needsFixingOf f) (getReplacementOf f) ge nid i c sP).1
    ∧ (afStep f (some ge) nid i c sA).2.2
      = (pfStep (needsFixingOf f) (getReplacementOf f) ge nid i c sP).2.2
    ∧ EquivInv f (afStep f (some ge) nid i c sA).2.1
        (pfStep (needsFixingOf f) (getReplacementOf f) ge nid i c sP).2.1 := by
  have hinvStep := afStep_inv f (some ge) nid i c sA h.inv
  by_cases hrep : c ∈ sA.reported
  · -- the child was already fatally reported: both drivers skip
    have hfatal := h.inv.2 c hrep
    have hAnone : rlookup c sA.replacements = Option.none := by
      rcases hl : rlookup c sA.replacements with _ | b
      · rfl
      · have := h.inv.1 c b hl
        rw [hfatal] at this
        cases this
    have hPnone := equiv_lookup_none h hAnone
    have hPrep : c ∈ sP.reported := by
      rw [← h.rep]
      exact hrep
    rw [afStep_of_reported f (some ge) nid i hrep,
      pfStep_of_unrep_reported ge nid i hPnone (needsFixingOf_fatal hfatal)
        (getReplacementOf_fatal hfatal) hPrep]
    exact ⟨rfl, rfl, h.rep, h.err, h.evs, h.typ, h.lkp, h.inv⟩
  · rcases h2 : rlookup c sA.replacements with _ | r
    · have hPnone := equiv_lookup_none h h2
      rcases h3 : f c with r | _ | _ | _
      · by_cases hc : c = r
        · -- Unchanged: the functional driver caches (c, c), the template
          -- driver's needs-fixing test declines
          subst hc
          rw [afStep_of_node (some ge) nid i hrep h2 h3, if_pos rfl,
            pfStep_of_not_needed (getReplacementOf f) ge nid i hPnone
              (needsFixingOf_node_self h3)]
          refine ⟨rfl, rfl, h.rep, h.err, h.evs, h.typ, ?_, ?_⟩
          · intro x b
            rw [rlookup_cons]
            by_cases hx : x = c
            · subst hx
              rw [if_pos rfl]
              constructor
              · intro hp
                rw [hPnone] at hp
                cases hp
              · intro hp
                obtain ⟨he, hbx⟩ := hp
                cases he
                exact absurd rfl hbx
            · rw [if_neg hx]
              exact h.lkp x b
          · exact ⟨afInv_insert h.inv h3, h.inv.2⟩
        · -- genuine replacement: both drivers cache it and rewrite
          have hrc : ¬ r = c := fun e => hc e.symm
          rw [afStep_of_node (some ge) nid i hrep h2 h3, if_neg hc,
            pfStep_of_repl ge nid i hPnone (needsFixingOf_node_ne h3 hc)
              (getReplacementOf_node_ne h3 hrc), if_neg hc]
          refine ⟨rfl, rfl, h.rep, h.err, h.evs, h.typ, ?_, ?_⟩
          · intro x b
            rw [rlookup_cons, rlookup_cons]
            by_cases hx : x = c
            · subst hx
              rw [if_pos rfl, if_pos rfl]
              constructor
              · intro hp
                cases hp
                exact ⟨rfl, hrc⟩
              · intro hp
                exact hp.1
            · rw [if_neg hx, if_neg hx]
              exact h.lkp x b
          · exact ⟨afInv_insert h.inv h3, h.inv.2⟩
      · -- Python None: both drivers decline
        rw [afStep_of_skip (some ge) nid i hrep h2 (Or.inl h3),
          pfStep_of_not_needed (getReplacementOf f) ge nid i hPnone
            (needsFixingOf_skip (Or.inl h3))]
        exact ⟨rfl, rfl, h.rep, h.err, h.evs, h.typ, h.lkp, h.inv⟩
      · -- Inapplicable: both drivers decline
        rw [afStep_of_skip (some ge) nid i hrep h2 (Or.inr h3),
          pfStep_of_not_needed (getReplacementOf f) ge nid i hPnone
            (needsFixingOf_skip (Or.inr h3))]
        exact ⟨rfl, rfl, h.rep, h.err, h.evs, h.typ, h.lkp, h.inv⟩
      · -- Fatal: both drivers report the node and emit the same diagnostic
        have hPrep : c ∉ sP.reported := by
          rw [← h.rep]
          exact hrep
        rw [afStep_of_fatal (some ge) nid i hrep h2 h3,
          pfStep_of_unrep_fresh ge nid i hPnone (needsFixingOf_fatal h3)
            (getReplacementOf_fatal h3) hPrep]
        refine ⟨rfl, rfl, ?_, ?_, ?_, h.typ, h.lkp, ?_⟩
        · simp only [h.rep]
        · simp only [h.err]
        · simp only [h.evs]
        · refine ⟨h.inv.1, ?_⟩
          intro a ha
          rcases List.mem_append.1 ha with ha | ha
          · exact h.inv.2 a ha
          · rw [List.mem_singleton.1 ha]
            exact h3
    · -- cached in the functional driver
      have hfr := h.inv.1 c r h2
      by_cases hc : c = r
      · -- identity cache entry: the template driver declines again
        subst hc
        rw [afStep_of_cached f (some ge) nid i hrep h2, if_pos rfl,
          pfStep_of_not_needed (getReplacementOf f) ge nid i
            (equiv_lookup_self h h2) (needsFixingOf_node_self hfr)]
        exact ⟨rfl, rfl, h.rep, h.err, h.evs, h.typ, h.lkp, h.inv⟩
      · -- genuine cache entry: both drivers rewrite from their caches
        have hrc : ¬ r = c := fun e => hc e.symm
        have hPc : rlookup c sP.replacements = some r := (h.lkp c r).2 ⟨h2, hrc⟩
        rw [afStep_of_cached f (some ge) nid i hrep h2, if_neg hc,
          pfStep_of_cached (needsFixingOf f) (getReplacementOf f) ge nid i hPc,
          if_neg hc]
        exact ⟨rfl, rfl, h.rep, h.err, h.evs, h.typ, h.lkp, h.inv⟩

lemma equiv_inputs (f : NodeFixer) (ge : Nat → Nat → Option Nat) (nid : Nat) :
    ∀ (ins : List Nat) (i : Nat) (sA : AFState) (sP : PFState),
    EquivInv f sA sP →
    (afInputs f (some ge) nid ins i sA).1
      = (pfInputs (needsFixingOf f) (getReplacementOf f) ge nid ins i sP).1
    ∧ (afInputs f (some ge) nid ins i sA).2.2
      = (pfInputs (needsFixingOf f) (getReplacementOf f) ge nid ins i sP).2.2
    ∧ EquivInv f (afInputs f (some ge) nid ins i sA).2.1
        (pfInputs (needsFixingOf f) (getReplacementOf f) ge nid ins i sP).2.1
  | [], _, sA, sP, h => ⟨rfl, rfl, h⟩
  | c :: rest, i, sA, sP, h => by
    obtain ⟨he, hu, hs⟩ := equiv_step f ge nid i c sA sP h
    obtain ⟨he2, hu2, hs2⟩ := equiv_inputs f ge nid rest (i + 1)
      (afStep f (some ge) nid i c sA).2.1
      (pfStep (needsFixingOf f) (getReplacementOf f) ge nid i c sP).2.1 hs
    simp only [afInputs, pfInputs]
    exact ⟨by rw [he, he2], by rw [hu, hu2], hs2⟩

lemma equiv_node (f : NodeFixer) (ge : Nat → Nat → Option Nat)
    (row : Nat × List Nat) (sA : AFState) (sP : PFState)
    (h : EquivInv f sA sP) :
    (afNode f (some ge) row sA).1
      = (pfNode (needsFixingOf f) (getReplacementOf f) ge row sP).1
    ∧ EquivInv f (afNode f (some ge) row sA).2
        (pfNode (needsFixingOf f) (getReplacementOf f) ge row sP).2 := by
  obtain ⟨he, hu, hs⟩ := equiv_inputs f ge row.1 row.2 0 sA sP h
  simp only [afNode, pfNode]
  rw [← hu, ← he]
  by_cases hb : (afInputs f (some ge) row.1 row.2 0 sA).2.2
  · rw [if_pos hb, if_pos hb]
    exact ⟨rfl, hs.rep, hs.err, hs.evs, by rw [hs.typ], hs.lkp, hs.inv⟩
  · rw [if_neg hb, if_neg hb]
    exact ⟨rfl, hs⟩

lemma equiv_pass (f : NodeFixer) (ge : Nat → Nat → Option Nat) :
    ∀ (g : Graph) (sA : AFState) (sP : PFState), EquivInv f sA sP →
    (afPass f (some ge) g sA).1
      = (pfPass (needsFixingOf f) (getReplacementOf f) ge g sP).1
    ∧ EquivInv f (afPass f (some ge) g sA).2
        (pfPass (needsFixingOf f) (getReplacementOf f) ge g sP).2
  | [], _, _, h => ⟨rfl, h⟩
  | row :: rest, sA, sP, h => by
    obtain ⟨he, hs⟩ := equiv_node f ge row sA sP h
    obtain ⟨he2, hs2⟩ := equiv_pass f ge rest (afNode f (some ge) row sA).2
      (pfNode (needsFixingOf f) (getReplacementOf f) ge row sP).2 hs
    simp only [afPass, pfPass]
    exact ⟨by rw [he, he2], hs2⟩

lemma equivInv_init (f : NodeFixer) : EquivInv f AFState.init PFState.init := by
  refine ⟨rfl, rfl, rfl, rfl, ?_, afInv_init f⟩
  intro x b
  constructor
  · intro hp
    simp [PFState.init, rlookup] at hp
  · intro hp
    obtain ⟨ha, _⟩ := hp
    simp [AFState.init, rlookup] at ha

/-! ## Lemmas about the fixer combinators -/

lemma first_match_all_skip : ∀ (fs : List NodeFixer) (n : Nat),
    (∀ f2 ∈ fs, f2 n = NodeFixerResult.none ∨ f2 n = .inapplicable) →
    first_match fs n = .inapplicable
  | [], _, _ => rfl
  | f :: rest, n, h => by
    have hrec := first_match_all_skip rest n (fun g hg => h g (List.mem_cons_of_mem f hg))
    rcases h f (List.mem_cons_self f rest) with hf | hf <;>
      simp [first_match, hf, hrec]

lemma first_match_decisive (f : NodeFixer) (fs : List NodeFixer) (n : Nat)
    (h1 : f n ≠ .inapplicable) (h2 : f n ≠ NodeFixerResult.none) :
    first_match (f :: fs) n = f n := by
  rcases hf : f n with r | _ | _ | _
  · simp [first_match, hf]
  · exact absurd hf h2
  · exact absurd hf h1
  · simp [first_match, hf]

lemma first_match_append_skip : ∀ (fs1 : List NodeFixer) (l : List NodeFixer) (n : Nat),
    (∀ g2 ∈ fs1, g2 n = NodeFixerResult.none ∨ g2 n = .inapplicable) →
    first_match (fs1 ++ l) n = first_match l n
  | [], _, _, _ => rfl
  | f :: rest, l, n, h => by
    have hrec := first_match_append_skip rest l n
      (fun g hg => h g (List.mem_cons_of_mem f hg))
    rcases h f (List.mem_cons_self f rest) with hf | hf <;>
      simp [first_match, hf, hrec]

lemma first_match_ne_none : ∀ (fs : List NodeFixer) (n : Nat),
    first_match fs n ≠ NodeFixerResult.none
  | [], _ => by simp [first_match]
  | f :: rest, n => by
    have hrec := first_match_ne_none rest n
    rcases hf : f n with r | _ | _ | _ <;> simp [first_match, hf, hrec]

lemma first_match_count_decisive (f : NodeFixer) (fs : List NodeFixer) (n : Nat)
    (h1 : f n ≠ .inapplicable) (h2 : f n ≠ NodeFixerResult.none) :
    (first_match_count (f :: fs) n).2 = 1 := by
  rcases hf : f n with r | _ | _ | _
  · simp [first_match_count, hf]
  · exact absurd hf h2
  · exact absurd hf h1
  · simp [first_match_count, hf]

lemma first_match_count_append_skip :
    ∀ (fs1 : List NodeFixer) (l : List NodeFixer) (n : Nat),
    (∀ g2 ∈ fs1, g2 n = NodeFixerResult.none ∨ g2 n = .inapplicable) →
    (first_match_count (fs1 ++ l) n).2 = fs1.length + (first_match_count l n).2
  | [], _, _, _ => by simp
  | f :: rest, l, n, h => by
    have hrec := first_match_count_append_skip rest l n
      (fun g hg => h g (List.mem_cons_of_mem f hg))
    rcases h f (List.mem_cons_self f rest) with hf | hf <;>
      · simp [first_match_count, hf, hrec]
        omega

/-! ## Claim theorems -/

/-- Claim C1, counterexample to the invocation-count clause: on a graph
with two parents of a single Fatal node, `ancestors_first` invokes the node
fixer once on that node, while `fix_problems` with the equivalent policy
consults `_needs_fixing` twice on it, so the two drivers do not make the
same number of policy invocations per node. -/
theorem c1_invocation_count_cex :
    (ancestors_first (fun _ => NodeFixerResult.fatal) (some fun _ _ => some 7)
      [(10, [0]), (11, [0])]).2.fixerCalls.count 0 = 1
    ∧ (fix_problems (needsFixingOf (fun _ => NodeFixerResult.fatal))
        (getReplacementOf (fun _ => NodeFixerResult.fatal)) (fun _ _ => some 7)
        [(10, [0]), (11, [0])]).2.nfCalls.count 0 = 2 := by
  decide

/-- Claim C1 (amended): for every node fixer and the template policy
derived from it (`_needs_fixing` true iff the fixer yields a genuine
replacement or Fatal, `_get_replacement` the replacement or nothing on
Fatal, `_get_error` the same diagnostic factory), `fix_problems` produces
exactly the observable behavior of `ancestors_first`: the same final
edges, the same sequence of `typer.update_type` calls, the same
diagnostics, the same fatal-report events and the same reported set —
though not, as the claim also asserted, the same number of policy
invocations per node. -/
theorem c1_refinement_equivalence (f : NodeFixer) (ge : Nat → Nat → Option Nat)
    (g : Graph) :
    (ancestors_first f (some ge) g).1
      = (fix_problems (needsFixingOf f) (getReplacementOf f) ge g).1
    ∧ (ancestors_first f (some ge) g).2.typerCalls
      = (fix_problems (needsFixingOf f) (getReplacementOf f) ge g).2.typerCalls
    ∧ (ancestors_first f (some ge) g).2.errors
      = (fix_problems (needsFixingOf f) (getReplacementOf f) ge g).2.errors
    ∧ (ancestors_first f (some ge) g).2.events
      = (fix_problems (needsFixingOf f) (getReplacementOf f) ge g).2.events
    ∧ (ancestors_first f (some ge) g).2.reported
      = (fix_problems (needsFixingOf f) (getReplacementOf f) ge g).2.reported := by
  obtain ⟨hg, hs⟩ := equiv_pass f ge g AFState.init PFState.init (equivInv_init f)
  exact ⟨hg, hs.typ, hs.err, hs.evs, hs.rep⟩

/-- Claim C2, counterexample to the parenthetical "regardless of what
result the fixer returns": when the fixer answers `Inapplicable` for a
node shared by two parents, nothing is cached and the fixer is invoked
once per parent, twice in all. -/
theorem c2_reinvocation_cex :
    (ancestors_first (fun _ => NodeFixerResult.inapplicable) Option.none
      [(10, [0]), (11, [0])]).2.fixerCalls.count 0 = 2 := by
  decide

/-- Claim C2 (amended): in one `ancestors_first` pass, a node on which the
fixer is decisive (it returns a node or Fatal — not `Inapplicable` or
`None`) is passed to the fixer at most once however many parents share
it, and when the fixer maps `c` to the node `r`, after the pass every
edge that originally pointed at `c` points at the identical node `r`. -/
theorem c2_at_most_once_per_pass (f : NodeFixer)
    (ge : Option (Nat → Nat → Option Nat)) (g : Graph) (c : Nat) :
    ((f c ≠ .inapplicable ∧ f c ≠ NodeFixerResult.none) →
      (ancestors_first f ge g).2.fixerCalls.count c ≤ 1)
    ∧ (∀ r, f c = .node r →
        List.Forall₂ (fun rowO rowN => rowO.1 = rowN.1
          ∧ List.Forall₂ (fun a b => a = c → b = r) rowO.2 rowN.2)
          g (ancestors_first f ge g).1) := by
  constructor
  · intro hdec
    exact (afPass_count f ge c hdec g AFState.init (afCount_init c)).1
  · intro r hr
    exact afPass_pointwise f ge c r hr g AFState.init (afInv_init f)

/-- Witness for C2 (amended) at a concrete instance: a replacement fixer
on a node shared by two parents runs at most once and both parents end up
at the identical replacement. -/
theorem c2_at_most_once_per_pass_witness :
    (ancestors_first (fun n => if n = 0 then NodeFixerResult.node 5
        else NodeFixerResult.inapplicable) Option.none
      [(10, [0]), (11, [0])]).2.fixerCalls.count 0 ≤ 1
    ∧ List.Forall₂ (fun rowO rowN => rowO.1 = rowN.1
        ∧ List.Forall₂ (fun a b => a = 0 → b = 5) rowO.2 rowN.2)
        [(10, [0]), (11, [0])]
        (ancestors_first (fun n => if n = 0 then NodeFixerResult.node 5
          else NodeFixerResult.inapplicable) Option.none
          [(10, [0]), (11, [0])]).1 := by
  refine ⟨(c2_at_most_once_per_pass
      (fun n => if n = 0 then NodeFixerResult.node 5 else NodeFixerResult.inapplicable)
      Option.none [(10, [0]), (11, [0])] 0).1 ⟨by decide, by decide⟩,
    (c2_at_most_once_per_pass
      (fun n => if n = 0 then NodeFixerResult.node 5 else NodeFixerResult.inapplicable)
      Option.none [(10, [0]), (11, [0])] 0).2 5 (by decide)⟩

/-- Claim C3: one `ancestors_first` pass returns `progress = true` exactly
when the pass changed some edge of the graph; after a pass that reports no
progress a re-run is identical; and with a fixer that only self-returns or
declines, the pass changes nothing, reports no progress, emits no
diagnostics, and re-running is idempotent. -/
theorem c3_progress_iff_graph_changed (f : NodeFixer)
    (ge : Option (Nat → Nat → Option Nat)) (g : Graph) :
    ((ancestors_first f ge g).2.progress = true
      ↔ ¬ (ancestors_first f ge g).1 = g)
    ∧ ((ancestors_first f ge g).2.progress = false →
        ancestors_first f ge ((ancestors_first f ge g).1)
          = ancestors_first f ge g)
    ∧ ((∀ row ∈ g, ∀ c ∈ row.2, f c = .node c ∨ f c = .inapplicable) →
        (ancestors_first f ge g).1 = g
        ∧ (ancestors_first f ge g).2.progress = false
        ∧ (ancestors_first f ge g).2.errors = []
        ∧ ancestors_first f ge ((ancestors_first f ge g).1)
            = ancestors_first f ge g) := by
  have hp : (ancestors_first f ge g).2.progress
      = decide (¬ (ancestors_first f ge g).1 = g) := by
    show (afPass f ge g AFState.init).2.progress
      = decide (¬ (afPass f ge g AFState.init).1 = g)
    rw [(afPass_prog f ge g AFState.init afProg_init).2]
    rfl
  refine ⟨?_, ?_, ?_⟩
  · rw [hp]
    simp
  · intro h
    rw [hp] at h
    simp at h
    rw [h]
  · intro hid
    obtain ⟨hg, htriv⟩ := afPass_triv f ge g hid AFState.init afTriv_init
    refine ⟨hg, htriv.2.2.1, htriv.2.1, ?_⟩
    show ancestors_first f ge ((afPass f ge g AFState.init).1)
      = ancestors_first f ge g
    rw [hg]

/-- Witness for C3 at a concrete instance: the identity fixer on a small
graph yields no progress, an unchanged graph, no diagnostics, and an
idempotent re-run. -/
theorem c3_progress_iff_graph_changed_witness :
    ((ancestors_first (fun n => NodeFixerResult.node n) Option.none
        [(1, [0])]).1 = [(1, [0])]
      ∧ (ancestors_first (fun n => NodeFixerResult.node n) Option.none
        [(1, [0])]).2.progress = false
      ∧ (ancestors_first (fun n => NodeFixerResult.node n) Option.none
        [(1, [0])]).2.errors = []
      ∧ ancestors_first (fun n => NodeFixerResult.node n) Option.none
          ((ancestors_first (fun n => NodeFixerResult.node n) Option.none
            [(1, [0])]).1)
        = ancestors_first (fun n => NodeFixerResult.node n) Option.none
            [(1, [0])])
    ∧ ((ancestors_first (fun _ => NodeFixerResult.node 9) Option.none
        [(1, [0])]).2.progress = true
      ↔ ¬ (ancestors_first (fun _ => NodeFixerResult.node 9) Option.none
        [(1, [0])]).1 = [(1, [0])]) := by
  refine ⟨(c3_progress_iff_graph_changed (fun n => NodeFixerResult.node n)
      Option.none [(1, [0])]).2.2 ?_,
    (c3_progress_iff_graph_changed (fun _ => NodeFixerResult.node 9)
      Option.none [(1, [0])]).1⟩
  intro row hrow c hc
  left
  rfl

/-- Claim C4: in one pass of either driver, each node judged Fatal
produces at most one fatal-report event however many parents it has, and
the error report consists exactly of the diagnostics the factory yielded
for those events — so each Fatal node contributes at most one diagnostic,
whether or not a factory is supplied and whether or not it yields one. -/
theorem c4_error_dedup (f : NodeFixer) (ge : Option (Nat → Nat → Option Nat))
    (g : Graph) (c : Nat) (nf : Nat → Bool) (gr : Nat → Option Nat)
    (geP : Nat → Nat → Option Nat) (gP : Graph) :
    (List.count c ((ancestors_first f ge g).2.events.map (fun e => e.1)) ≤ 1
      ∧ (ancestors_first f ge g).2.errors
          = evErrors ge (ancestors_first f ge g).2.events)
    ∧ (List.count c ((fix_problems nf gr geP gP).2.events.map (fun e => e.1)) ≤ 1
      ∧ (fix_problems nf gr geP gP).2.errors
          = evErrors (some geP) (fix_problems nf gr geP gP).2.events) := by
  obtain ⟨hmap, hnodup, herr⟩ := afPass_ev f ge g AFState.init (afEv_init ge)
  obtain ⟨hmap2, hnodup2, herr2⟩ := pfPass_ev nf gr geP gP PFState.init (pfEv_init geP)
  constructor
  · constructor
    · show List.count c ((afPass f ge g AFState.init).2.events.map (fun e => e.1)) ≤ 1
      rw [hmap]
      exact List.nodup_iff_count_le_one.1 hnodup c
    · exact herr
  · constructor
    · show List.count c
        ((pfPass nf gr geP gP PFState.init).2.events.map (fun e => e.1)) ≤ 1
      rw [hmap2]
      exact List.nodup_iff_count_le_one.1 hnodup2 c
    · exact herr2

/-- Claim C5: in both drivers, processing a node calls
`typer.update_type` on it exactly when the processing changed the node's
input list — a node none of whose edges were rewritten (for instance one
whose only problematic input was judged Fatal) triggers no typer
invalidation. -/
theorem c5_typer_invalidation (f : NodeFixer)
    (ge : Option (Nat → Nat → Option Nat)) (row : Nat × List Nat)
    (st : AFState) (nf : Nat → Bool) (gr : Nat → Option Nat)
    (geP : Nat → Nat → Option Nat) (stP : PFState) :
    (afNode f ge row st).2.typerCalls
      = st.typerCalls
        ++ (if (afNode f ge row st).1.2 = row.2 then [] else [row.1])
    ∧ (pfNode nf gr geP row stP).2.typerCalls
      = stP.typerCalls
        ++ (if (pfNode nf gr geP row stP).1.2 = row.2 then [] else [row.1]) :=
  ⟨afNode_typer f ge row st, pfNode_typer nf gr geP row stP⟩

/-- Claim C6: the fixer built by `node_fixer_first_match` tries the fixers
in list order; if every fixer answers `Inapplicable` it answers
`Inapplicable`; and as soon as a fixer is decisive (a node or Fatal) that
result is returned with exactly the fixers up to and including it having
been invoked. -/
theorem c6_first_match_semantics (fs : List NodeFixer) (n : Nat) :
    ((∀ f2 ∈ fs, f2 n = .inapplicable) →
      node_fixer_first_match fs n = .inapplicable)
    ∧ (∀ (fs1 : List NodeFixer) (f2 : NodeFixer) (fs2 : List NodeFixer),
        (∀ g2 ∈ fs1, g2 n = .inapplicable) →
        f2 n ≠ .inapplicable → f2 n ≠ NodeFixerResult.none →
        node_fixer_first_match (fs1 ++ f2 :: fs2) n = f2 n
          ∧ (first_match_count (fs1 ++ f2 :: fs2) n).2 = fs1.length + 1) := by
  constructor
  · intro h
    exact first_match_all_skip fs n (fun g2 hg => Or.inr (h g2 hg))
  · intro fs1 f2 fs2 hpre h1 h2
    constructor
    · show first_match (fs1 ++ f2 :: fs2) n = f2 n
      rw [first_match_append_skip fs1 (f2 :: fs2) n
        (fun g2 hg => Or.inr (hpre g2 hg))]
      exact first_match_decisive f2 fs2 n h1 h2
    · rw [first_match_count_append_skip fs1 (f2 :: fs2) n
        (fun g2 hg => Or.inr (hpre g2 hg)),
        first_match_count_decisive f2 fs2 n h1 h2]

/-- Witness for C6 at a concrete instance: with an inapplicable fixer
followed by a replacing fixer followed by a fatal fixer, the combined
fixer returns the replacement and invokes exactly two sub-fixers. -/
theorem c6_first_match_semantics_witness :
    node_fixer_first_match [fun _ => NodeFixerResult.inapplicable] 0
      = NodeFixerResult.inapplicable
    ∧ node_fixer_first_match ([fun _ => NodeFixerResult.inapplicable]
        ++ (fun _ => NodeFixerResult.node 5) :: [fun _ => NodeFixerResult.fatal]) 0
      = NodeFixerResult.node 5
    ∧ (first_match_count ([fun _ => NodeFixerResult.inapplicable]
        ++ (fun _ => NodeFixerResult.node 5) :: [fun _ => NodeFixerResult.fatal]) 0).2
      = 2 := by
  have h1 := (c6_first_match_semantics [fun _ => NodeFixerResult.inapplicable] 0).1
    (by
      intro f2 hf
      rw [List.mem_singleton] at hf
      subst hf
      rfl)
  have h2 := (c6_first_match_semantics ([fun _ => NodeFixerResult.inapplicable]
      ++ (fun _ => NodeFixerResult.node 5) :: [fun _ => NodeFixerResult.fatal]) 0).2
    [fun _ => NodeFixerResult.inapplicable] (fun _ => NodeFixerResult.node 5)
    [fun _ => NodeFixerResult.fatal]
    (by
      intro g2 hg
      rw [List.mem_singleton] at hg
      subst hg
      rfl)
    (by intro h; cases h) (by intro h; cases h)
  exact ⟨h1, h2.1, h2.2⟩

/-- Claim C7, counterexample: for a node not of the guarded variant,
`type_guard` returns the Python `None` sentinel, which is a different
value from `Inapplicable`. -/
theorem c7_type_guard_cex :
    type_guard (fun _ => false) (fun _ => NodeFixerResult.fatal) 0
      = NodeFixerResult.none
    ∧ NodeFixerResult.none ≠ NodeFixerResult.inapplicable := by
  exact ⟨rfl, by intro h; cases h⟩

/-- Claim C7 (amended): the fixer built by `type_guard` declines
immediately with `None` (not `Inapplicable` — an equivalent decline
sentinel at the combinator interface) when the node is not of the guarded
variant, without consulting the wrapped fixer; when the node is of the
variant it returns exactly the wrapped fixer's answer. -/
theorem c7_type_guard_isolation (isT : Nat → Bool) (f1 f2 : NodeFixer) (n : Nat) :
    (isT n = false → type_guard isT f1 n = NodeFixerResult.none
      ∧ type_guard isT f1 n = type_guard isT f2 n)
    ∧ (isT n = true → type_guard isT f1 n = f1 n) := by
  constructor
  · intro h
    constructor <;> simp [type_guard, h]
  · intro h
    simp [type_guard, h]

/-- Witness for C7 (amended) at a concrete instance. -/
theorem c7_type_guard_isolation_witness :
    (type_guard (fun x => decide (x = 1)) (fun _ => NodeFixerResult.fatal) 0
        = NodeFixerResult.none
      ∧ type_guard (fun x => decide (x = 1)) (fun _ => NodeFixerResult.fatal) 0
        = type_guard (fun x => decide (x = 1)) (fun _ => NodeFixerResult.node 9) 0)
    ∧ type_guard (fun x => decide (x = 1)) (fun _ => NodeFixerResult.fatal) 1
      = NodeFixerResult.fatal := by
  exact ⟨(c7_type_guard_isolation (fun x => decide (x = 1))
      (fun _ => NodeFixerResult.fatal) (fun _ => NodeFixerResult.node 9) 0).1
      (by decide),
    (c7_type_guard_isolation (fun x => decide (x = 1))
      (fun _ => NodeFixerResult.fatal) (fun _ => NodeFixerResult.node 9) 1).2
      (by decide)⟩

/-- Claim C8: a Fatal verdict never terminates an `ancestors_first` pass
early: the pass still visits every node (the output graph lists the same
node identities in the same order), every node occurring as an input and
judged Fatal ends up in the reported set — so several independent Fatal
nodes each get their diagnostic within a single pass — and the pass
always returns its accumulated pair rather than raising. -/
theorem c8_fatal_never_stops_pass (f : NodeFixer)
    (ge : Option (Nat → Nat → Option Nat)) (g : Graph) :
    (ancestors_first f ge g).1.map Prod.fst = g.map Prod.fst
    ∧ (∀ row ∈ g, ∀ c ∈ row.2, f c = .fatal →
        c ∈ (ancestors_first f ge g).2.reported) := by
  constructor
  · exact afPass_map_fst f ge g AFState.init
  · intro row hrow c hc hfatal
    exact afPass_fatal_mem f ge c hfatal g AFState.init (afInv_init f)
      ⟨row, hrow, hc⟩

/-- Witness for C8 at a concrete instance: two independent Fatal nodes in
one graph are both reported within a single pass, and the pass still
enumerates both consumer nodes. -/
theorem c8_fatal_never_stops_pass_witness :
    (ancestors_first (fun _ => NodeFixerResult.fatal)
        (some fun n _ => some n) [(10, [0]), (11, [1])]).1.map Prod.fst
      = [10, 11]
    ∧ 0 ∈ (ancestors_first (fun _ => NodeFixerResult.fatal)
        (some fun n _ => some n) [(10, [0]), (11, [1])]).2.reported
    ∧ 1 ∈ (ancestors_first (fun _ => NodeFixerResult.fatal)
        (some fun n _ => some n) [(10, [0]), (11, [1])]).2.reported := by
  obtain ⟨hids, hmem⟩ := c8_fatal_never_stops_pass
    (fun _ => NodeFixerResult.fatal) (some fun n _ => some n)
    [(10, [0]), (11, [1])]
  exact ⟨hids, hmem (10, [0]) (by simp) 0 (by simp) rfl,
    hmem (11, [1]) (by simp) 1 (by simp) rfl⟩

/-- Claim C9, counterexample: when the fixer returns the node itself, the
identity entry is recorded in the Replacement Map and a later parent does
not re-invoke the fixer: with two parents of node 0 and the identity
fixer, the pass ends with `replacements = [(0, 0)]` and a single fixer
invocation, not two. -/
theorem c9_unchanged_caching_cex :
    (ancestors_first (fun n => NodeFixerResult.node n) Option.none
      [(10, [0]), (11, [0])]).2.replacements = [(0, 0)]
    ∧ (ancestors_first (fun n => NodeFixerResult.node n) Option.none
      [(10, [0]), (11, [0])]).2.fixerCalls = [0] := by
  decide

/-- Claim C9 (amended): when the node fixer returns the input node `c`
itself, no edge pointing at `c` is changed, but — contrary to the claim —
the identity entry `c ↦ c` is recorded in the Replacement Map, so a later
parent encountering `c` finds the cached entry and the fixer runs on `c`
at most once per pass. -/
theorem c9_unchanged_is_cached (f : NodeFixer)
    (ge : Option (Nat → Nat → Option Nat)) (g : Graph) (c : Nat)
    (h : f c = .node c) :
    (ancestors_first f ge g).2.fixerCalls.count c ≤ 1
    ∧ ((∃ row ∈ g, c ∈ row.2) →
        rlookup c (ancestors_first f ge g).2.replacements = some c)
    ∧ List.Forall₂ (fun rowO rowN => rowO.1 = rowN.1
        ∧ List.Forall₂ (fun a b => a = c → b = a) rowO.2 rowN.2)
        g (ancestors_first f ge g).1 := by
  refine ⟨?_, ?_, ?_⟩
  · have hdec : f c ≠ .inapplicable ∧ f c ≠ NodeFixerResult.none := by
      rw [h]
      refine ⟨?_, ?_⟩
      · intro e
        cases e
      · intro e
        cases e
    exact (afPass_count f ge c hdec g AFState.init (afCount_init c)).1
  · intro hocc
    exact afPass_node_lookup f ge c c h g AFState.init (afInv_init f) hocc
  · have hp := afPass_pointwise f ge c c h g AFState.init (afInv_init f)
    refine hp.imp ?_
    intro rowO rowN hrn
    refine ⟨hrn.1, hrn.2.imp ?_⟩
    intro a b hab he
    rw [he]
    exact hab he

/-- Witness for C9 (amended) at a concrete instance. -/
theorem c9_unchanged_is_cached_witness :
    (ancestors_first (fun n => NodeFixerResult.node n) Option.none
      [(10, [0]), (11, [0])]).2.fixerCalls.count 0 ≤ 1
    ∧ rlookup 0 (ancestors_first (fun n => NodeFixerResult.node n) Option.none
        [(10, [0]), (11, [0])]).2.replacements = some 0
    ∧ List.Forall₂ (fun rowO rowN => rowO.1 = rowN.1
        ∧ List.Forall₂ (fun a b => a = 0 → b = a) rowO.2 rowN.2)
        [(10, [0]), (11, [0])]
        (ancestors_first (fun n => NodeFixerResult.node n) Option.none
          [(10, [0]), (11, [0])]).1 := by
  obtain ⟨h1, h2, h3⟩ := c9_unchanged_is_cached
    (fun n => NodeFixerResult.node n) Option.none [(10, [0]), (11, [0])] 0 rfl
  exact ⟨h1, h2 ⟨(10, [0]), by simp, by simp⟩, h3⟩

/-- Claim C10: `node_fixer_first_match` treats a sub-fixer answering
`None` exactly like one answering `Inapplicable` (the search continues),
the combined fixer never returns `None` (all-declining lists yield the
`Inapplicable` sentinel), and composing with a `type_guard` that declines
with `None` just skips the guarded fixer. -/
theorem c10_none_is_inapplicable (fs : List NodeFixer) (n : Nat) :
    node_fixer_first_match fs n ≠ NodeFixerResult.none
    ∧ ((∀ f2 ∈ fs, f2 n = NodeFixerResult.none ∨ f2 n = .inapplicable) →
        node_fixer_first_match fs n = .inapplicable)
    ∧ (∀ (fs1 fs2 : List NodeFixer) (f2 : NodeFixer),
        (∀ g2 ∈ fs1, g2 n = NodeFixerResult.none ∨ g2 n = .inapplicable) →
        node_fixer_first_match (fs1 ++ f2 :: fs2) n
          = node_fixer_first_match (f2 :: fs2) n)
    ∧ (∀ (isT : Nat → Bool) (f2 : NodeFixer) (fs2 : List NodeFixer),
        isT n = false →
        node_fixer_first_match (type_guard isT f2 :: fs2) n
          = node_fixer_first_match fs2 n) := by
  refine ⟨first_match_ne_none fs n, first_match_all_skip fs n, ?_, ?_⟩
  · intro fs1 fs2 f2 h
    exact first_match_append_skip fs1 (f2 :: fs2) n h
  · intro isT f2 fs2 h
    show first_match (type_guard isT f2 :: fs2) n = first_match fs2 n
    simp [first_match, type_guard, h]

/-- Witness for C10 at a concrete instance. -/
theorem c10_none_is_inapplicable_witness :
    node_fixer_first_match [fun _ => NodeFixerResult.none] 0
      ≠ NodeFixerResult.none
    ∧ node_fixer_first_match [fun _ => NodeFixerResult.none] 0
      = NodeFixerResult.inapplicable
    ∧ node_fixer_first_match ([fun _ => NodeFixerResult.none]
        ++ (fun _ => NodeFixerResult.node 3) :: []) 0
      = node_fixer_first_match ((fun _ => NodeFixerResult.node 3) :: []) 0
    ∧ node_fixer_first_match
        [type_guard (fun _ => false) (fun _ => NodeFixerResult.fatal)] 0
      = node_fixer_first_match [] 0 := by
  obtain ⟨h1, h2, h3, h4⟩ :=
    c10_none_is_inapplicable [fun _ => NodeFixerResult.none] 0
  refine ⟨h1, h2 ?_, h3 [fun _ => NodeFixerResult.none] []
      (fun _ => NodeFixerResult.node 3) ?_,
    h4 (fun _ => false) (fun _ => NodeFixerResult.fatal) [] rfl⟩
  · intro f2 hf
    rw [List.mem_singleton] at hf
    subst hf
    left
    rfl
  · intro g2 hg
    rw [List.mem_singleton] at hg
    subst hg
    left
    rfl
